import Mathlib

/-!
# Verification of the llama-agent core orchestration engine

Shallow embedding of the planning state machine, context store, subagent
manager, agent registry and planning workflow of the llama-agent
repository, together with theorems settling the specification claims.

JSON values are modelled by the inductive type `J`; `nlohmann::json`
operations used by the code (`value`, `contains`, `operator[]`,
iteration, `size`) are modelled by executable helper functions.  C++
functions that can throw a `json::exception` which is caught by a caller
are modelled in an `Option` monad (`none` = an exception was thrown).
Timestamps produced by wall-clock calls are passed in as explicit
parameters.  File systems are modelled as association lists from paths
to JSON values (plus a set of raw paths for non-JSON files).
-/

set_option maxRecDepth 4000

/-- Minimal JSON value model (`nlohmann::ordered_json`). Object keys keep
insertion order, mirroring `ordered_json`. -/
inductive J where
  | null : J
  | jbool : Bool → J
  | jnum : Int → J
  | jstr : String → J
  | jarr : List J → J
  | jobj : List (String × J) → J

namespace J

/-- Key lookup in an object's key/value list (first binding wins). -/
def lookupKV : List (String × J) → String → Option J
  | [], _ => none
  | (k, v) :: rest, key => if k = key then some v else lookupKV rest key

/-- `j.contains(key)`: true only on objects holding the key. -/
def containsKey : J → String → Bool
  | .jobj kvs, key => (lookupKV kvs key).isSome
  | _, _ => false

/-- `j.value(key, stringDefault)` where the caller catches exceptions:
present string value, or the default when the key is absent.  A present
non-string value throws in C++ (`type_error.302`), modelled as `none`;
calling `value` on a non-object throws `type_error.306`, also `none`. -/
def valueStr? : J → String → String → Option String
  | .jobj kvs, key, d =>
      match lookupKV kvs key with
      | some (.jstr s) => some s
      | some _ => none
      | none => some d
  | _, _, _ => none

/-- `j.value(key, intDefault)`, exception-aware like `valueStr?`. -/
def valueInt? : J → String → Int → Option Int
  | .jobj kvs, key, d =>
      match lookupKV kvs key with
      | some (.jnum n) => some n
      | some _ => none
      | none => some d
  | _, _, _ => none

/-- `j.value(key, boolDefault)`, exception-aware. -/
def valueBool? : J → String → Bool → Option Bool
  | .jobj kvs, key, d =>
      match lookupKV kvs key with
      | some (.jbool b) => some b
      | some _ => none
      | none => some d
  | _, _, _ => none

/-- `j.value(key, jsonDefault)`: a `json`-typed default accepts any value
type, so only calling it on a non-object throws. -/
def valueJ? : J → String → J → Option J
  | .jobj kvs, key, d => some ((lookupKV kvs key).getD d)
  | _, _, _ => none

/-- Replace the binding for `key`, or append it (`ordered_json`
`operator[]=` keeps the position of an existing key). -/
def setKV : List (String × J) → String → J → List (String × J)
  | [], key, v => [(key, v)]
  | (k, w) :: rest, key, v =>
      if k = key then (k, v) :: rest else (k, w) :: setKV rest key v

/-- `j.is_array()` -/
def isArr : J → Bool
  | .jarr _ => true
  | _ => false

/-- `j.is_string()` -/
def isStr : J → Bool
  | .jstr _ => true
  | _ => false

/-- Range-based iteration over a json value: arrays yield elements,
objects yield values, `null` yields nothing, primitives yield themselves
(nlohmann `begin()`/`end()` semantics). -/
def elements : J → List J
  | .jarr xs => xs
  | .jobj kvs => kvs.map Prod.snd
  | .null => []
  | j => [j]

/-- `j.size()`: array length, object key count, 0 for null, 1 for
primitives. -/
def size : J → Nat
  | .jarr xs => xs.length
  | .jobj kvs => kvs.length
  | .null => 0
  | _ => 1

/-- `j[k]` read on an object (callers guard with `contains`). -/
def atKey : J → String → J
  | .jobj kvs, k => (lookupKV kvs k).getD .null
  | _, _ => .null

/-- `j.get<std::string>()`: `none` models the throw on non-strings. -/
def getString? : J → Option String
  | .jstr s => some s
  | _ => none

/-- `j.empty()`: nlohmann: true for null, empty array/object; false for
primitives. -/
def isEmptyJ : J → Bool
  | .null => true
  | .jarr xs => xs.isEmpty
  | .jobj kvs => kvs.isEmpty
  | _ => false

end J

/-- Generic association-list lookup keyed by strings (first binding
wins). -/
def assoc_lookup {α : Type} : List (String × α) → String → Option α
  | [], _ => none
  | (k, v) :: rest, key => if k = key then some v else assoc_lookup rest key

/-- Generic association-list insert-or-replace, keeping the position of
an existing key. -/
def assoc_set {α : Type} : List (String × α) → String → α → List (String × α)
  | [], key, v => [(key, v)]
  | (k, w) :: rest, key, v =>
      if k = key then (k, v) :: rest else (k, w) :: assoc_set rest key v

/-! ## Planning state machine (`src/tools/agent/planning/plan-state.cpp`) -/

namespace planning

/-- `planning_state` enum from `plan-state.h`. -/
inductive planning_state where
  | IDLE
  | EXPLORING
  | SYNTHESIZING
  | QUESTIONING
  | AWAITING_ANSWERS
  | REFINING
  | AWAITING_APPROVAL
  | APPROVED
  | ABORTED
deriving DecidableEq, Repr, Fintype

open planning_state

/-- `state_to_string` from `plan-state.cpp`. -/
def state_to_string : planning_state → String
  | IDLE => "idle"
  | EXPLORING => "exploring"
  | SYNTHESIZING => "synthesizing"
  | QUESTIONING => "questioning"
  | AWAITING_ANSWERS => "awaiting_answers"
  | REFINING => "refining"
  | AWAITING_APPROVAL => "awaiting_approval"
  | APPROVED => "approved"
  | ABORTED => "aborted"

/-- `string_to_state` from `plan-state.cpp`: unrecognized strings map to
`IDLE`. -/
def string_to_state (s : String) : planning_state :=
  if s = "idle" then IDLE
  else if s = "exploring" then EXPLORING
  else if s = "synthesizing" then SYNTHESIZING
  else if s = "questioning" then QUESTIONING
  else if s = "awaiting_answers" then AWAITING_ANSWERS
  else if s = "refining" then REFINING
  else if s = "awaiting_approval" then AWAITING_APPROVAL
  else if s = "approved" then APPROVED
  else if s = "aborted" then ABORTED
  else IDLE

/-- `planning_session` struct (`plan-state.h`); field defaults mirror the
C++ member initializers. -/
structure planning_session where
  state : planning_state
  context_id : String
  task : String
  exploration_findings : String
  plan_content : String
  questions : J
  answers : J
  iteration : Int
  plan_path : String
  created_at : String
  updated_at : String

/-- Default-constructed `planning_session{}`. -/
def planning_session.default : planning_session :=
  { state := IDLE, context_id := "", task := "", exploration_findings := ""
    plan_content := "", questions := J.jarr [], answers := J.jarr []
    iteration := 0, plan_path := "", created_at := "", updated_at := "" }

/-- `planning_session::to_json`. -/
def planning_session.to_json (s : planning_session) : J :=
  J.jobj [
    ("state", J.jstr (state_to_string s.state)),
    ("context_id", J.jstr s.context_id),
    ("task", J.jstr s.task),
    ("exploration_findings", J.jstr s.exploration_findings),
    ("plan_content", J.jstr s.plan_content),
    ("questions", s.questions),
    ("answers", s.answers),
    ("iteration", J.jnum s.iteration),
    ("plan_path", J.jstr s.plan_path),
    ("created_at", J.jstr s.created_at),
    ("updated_at", J.jstr s.updated_at)
  ]

/-- `planning_session::from_json`; `none` models a thrown
`json::exception` (caught by `planning_state_machine::load`). -/
def planning_session.from_json (j : J) : Option planning_session := do
  let stateStr ← j.valueStr? "state" "idle"
  let context_id ← j.valueStr? "context_id" ""
  let task ← j.valueStr? "task" ""
  let exploration_findings ← j.valueStr? "exploration_findings" ""
  let plan_content ← j.valueStr? "plan_content" ""
  let questions ← j.valueJ? "questions" (J.jarr [])
  let answers ← j.valueJ? "answers" (J.jarr [])
  let iteration ← j.valueInt? "iteration" 0
  let plan_path ← j.valueStr? "plan_path" ""
  let created_at ← j.valueStr? "created_at" ""
  let updated_at ← j.valueStr? "updated_at" ""
  pure { state := string_to_state stateStr, context_id, task,
         exploration_findings, plan_content, questions, answers,
         iteration, plan_path, created_at, updated_at }

/-- `planning_state_machine::validate_transition`. -/
def validate_transition : planning_state → planning_state → Bool
  | IDLE, t => t = EXPLORING
  | EXPLORING, t => t = SYNTHESIZING || t = ABORTED
  | SYNTHESIZING, t =>
      t = QUESTIONING || t = AWAITING_APPROVAL || t = ABORTED
  | QUESTIONING, t => t = AWAITING_ANSWERS || t = ABORTED
  | AWAITING_ANSWERS, t => t = REFINING || t = ABORTED
  | REFINING, t =>
      t = QUESTIONING || t = AWAITING_APPROVAL || t = ABORTED
  | AWAITING_APPROVAL, t =>
      t = APPROVED || t = REFINING || t = ABORTED
  | APPROVED, t => t = IDLE
  | ABORTED, t => t = IDLE

/-- `planning_state_machine::transition_to`, with the wall-clock
timestamp passed in and the (always-succeeding) atomic save modelled by
returning the new session: on an invalid transition the machine returns
`false` without touching or saving the session. -/
def transition_to (s : planning_session) (new_state : planning_state)
    (now : String) : Bool × planning_session :=
  if validate_transition s.state new_state then
    (true, { s with state := new_state, updated_at := now })
  else
    (false, s)

/-- `planning_state_machine::abort`: sets `ABORTED` unconditionally,
without consulting `validate_transition`. -/
def abort (s : planning_session) (now : String) : Bool × planning_session :=
  (true, { s with state := ABORTED, updated_at := now })

/-- `planning_state_machine::complete`: sets `APPROVED` unconditionally,
without consulting `validate_transition`. -/
def complete (s : planning_session) (now : String) : Bool × planning_session :=
  (true, { s with state := APPROVED, updated_at := now })

/-- `planning_state_machine::is_active`. -/
def is_active (s : planning_session) : Bool :=
  s.state != IDLE && s.state != APPROVED && s.state != ABORTED

/-- `planning_state_machine::is_interactive`. -/
def is_interactive (s : planning_session) : Bool :=
  s.state == AWAITING_ANSWERS || s.state == AWAITING_APPROVAL

/-- The nine state strings recognized by `string_to_state`. -/
def recognized_state_strings : List String :=
  ["idle", "exploring", "synthesizing", "questioning", "awaiting_answers",
   "refining", "awaiting_approval", "approved", "aborted"]

/-- The transition table as written in the specification (§4.8). -/
def claimed_transition_table : List (planning_state × planning_state) :=
  [(IDLE, EXPLORING),
   (EXPLORING, SYNTHESIZING), (EXPLORING, ABORTED),
   (SYNTHESIZING, QUESTIONING), (SYNTHESIZING, AWAITING_APPROVAL),
   (SYNTHESIZING, ABORTED),
   (QUESTIONING, AWAITING_ANSWERS), (QUESTIONING, ABORTED),
   (AWAITING_ANSWERS, REFINING), (AWAITING_ANSWERS, ABORTED),
   (REFINING, QUESTIONING), (REFINING, AWAITING_APPROVAL),
   (REFINING, ABORTED),
   (AWAITING_APPROVAL, APPROVED), (AWAITING_APPROVAL, REFINING),
   (AWAITING_APPROVAL, ABORTED),
   (APPROVED, IDLE), (ABORTED, IDLE)]

end planning

/-! ## Agent registry (`src/tools/agent/subagents/agent-registry.cpp`) -/

namespace agent_registry

/-- `std::islower(c)` in the C locale, on ASCII. -/
def is_lower_char (c : Char) : Bool := 'a' ≤ c && c ≤ 'z'

/-- `std::isdigit(c)`. -/
def is_digit_char (c : Char) : Bool := '0' ≤ c && c ≤ '9'

/-- The per-character loop of `agent_registry::validate_name`, carrying
the `prev_hyphen` flag. -/
def validate_name_loop : Bool → List Char → Bool
  | _, [] => true
  | prev_hyphen, c :: rest =>
      if c = '-' then
        if prev_hyphen then false else validate_name_loop true rest
      else if is_lower_char c || is_digit_char c then
        validate_name_loop false rest
      else
        false

/-- `agent_registry::validate_name`: 1–64 characters, lowercase letters,
digits and hyphens, no leading/trailing hyphen, no consecutive
hyphens. -/
def validate_name (name : String) : Bool :=
  if name.toList.isEmpty ∨ name.toList.length > 64 then false
  else if name.toList.headD ' ' = '-' ∨ name.toList.getLastD ' ' = '-' then false
  else validate_name_loop false name.toList

/-- `[a-z0-9]` -/
def is_name_char (c : Char) : Bool := is_lower_char c || is_digit_char c

mutual

/-- Matcher for the spec's regex `^[a-z0-9]+(-[a-z0-9]+)*$`: `name_core`
matches the whole pattern. -/
def name_core : List Char → Bool
  | [] => false
  | c :: rest => is_name_char c && name_after rest

/-- Matcher for the remainder after one `[a-z0-9]` has been consumed. -/
def name_after : List Char → Bool
  | [] => true
  | c :: rest => if c = '-' then name_core rest else is_name_char c && name_after rest

end

/-- `agent_definition` struct (`agent-registry.h`). -/
structure agent_definition where
  name : String
  description : String
  instructions : String
  allowed_tools : List String
  max_iterations : Int
  metadata : List (String × String)
  path : String
  agent_dir : String
deriving DecidableEq, Repr

/-- Insertion step of the name-sort applied to the discovered list
(`std::sort` by `a.name < b.name`; ties keep an arbitrary order, which
is irrelevant because discovered names are unique). -/
def insert_by_name (a : agent_definition) :
    List agent_definition → List agent_definition
  | [] => [a]
  | b :: rest =>
      if a.name ≤ b.name then a :: b :: rest else b :: insert_by_name a rest

/-- Sort the discovered agents by name. -/
def sort_by_name (l : List agent_definition) : List agent_definition :=
  l.foldr insert_by_name []

/-- One parsed on-disk agent processed by `agent_registry::discover`:
skipped silently when its name collides with an embedded agent,
otherwise inserted into `agents_by_name` (later entries overwrite
earlier ones). -/
def discover_step (embedded : List (String × agent_definition))
    (m : List (String × agent_definition)) (a : agent_definition) :
    List (String × agent_definition) :=
  if (assoc_lookup embedded a.name).isSome then m else assoc_set m a.name a

/-- `agent_registry::discover`: `search_paths` holds, per search path in
priority order (lowest last, as in the C++ call: data-dir,
project-local, user-global), the agent definitions successfully parsed
from that path's subdirectories, in directory-iteration order.  The
paths are walked in reverse so that earlier (higher-priority) paths
overwrite later ones; embedded agents are applied last and disk entries
clashing with them are skipped. -/
def discover_map (embedded : List (String × agent_definition))
    (search_paths : List (List agent_definition)) :
    List (String × agent_definition) :=
  embedded.foldl (fun m kv => assoc_set m kv.1 kv.2)
    (search_paths.reverse.foldl
      (fun m entries => entries.foldl (discover_step embedded) m)
      ([] : List (String × agent_definition)))

/-- `agent_registry::discover` result: the `agents_` vector, sorted by
name. -/
def discover (embedded : List (String × agent_definition))
    (search_paths : List (List agent_definition)) : List agent_definition :=
  sort_by_name ((discover_map embedded search_paths).map Prod.snd)

/-- `agent_registry::get_agent`: first agent in `agents_` with the given
name. -/
def get_agent (agents : List agent_definition) (name : String) :
    Option agent_definition :=
  agents.find? (fun a => a.name == name)

/-- Well-formedness of the `agents_by_name` map: unique keys, and each
value's name is its key. -/
def good_map (m : List (String × agent_definition)) : Prop :=
  (m.map Prod.fst).Nodup ∧ ∀ kv ∈ m, (Prod.snd kv).name = kv.1

/-- The embedded planning agent (name only matters here). -/
def embedded_planning : agent_definition :=
  { name := "planning-agent", description := "plans", instructions := "",
    allowed_tools := ["read", "glob"], max_iterations := 20, metadata := [],
    path := "<embedded>/planning-agent", agent_dir := "<embedded>" }

/-- The embedded explorer agent. -/
def embedded_explorer : agent_definition :=
  { name := "explorer-agent", description := "explores", instructions := "",
    allowed_tools := ["read", "glob"], max_iterations := 20, metadata := [],
    path := "<embedded>/explorer-agent", agent_dir := "<embedded>" }

/-- The embedded registry seeded by `register_embedded_agents`. -/
def sample_embedded : List (String × agent_definition) :=
  [("planning-agent", embedded_planning), ("explorer-agent", embedded_explorer)]

/-- A disk agent that clashes with the embedded planning agent. -/
def disk_planning_clone : agent_definition :=
  { name := "planning-agent", description := "disk clone", instructions := "",
    allowed_tools := [], max_iterations := 20, metadata := [],
    path := "/p/agents/planning-agent/AGENT.md",
    agent_dir := "/p/agents/planning-agent" }

/-- A project-local custom agent. -/
def proj_custom : agent_definition :=
  { name := "custom", description := "project-local", instructions := "",
    allowed_tools := [], max_iterations := 20, metadata := [],
    path := "/p/agents/custom/AGENT.md", agent_dir := "/p/agents/custom" }

/-- A user-global custom agent of the same name. -/
def glob_custom : agent_definition :=
  { name := "custom", description := "user-global", instructions := "",
    allowed_tools := [], max_iterations := 20, metadata := [],
    path := "/h/agents/custom/AGENT.md", agent_dir := "/h/agents/custom" }

end agent_registry

/-! ## Context store (`src/tools/agent/context/context-manager.cpp`) -/

namespace context

/-- Content of a file on disk as seen by `context_manager::read_json`:
either valid JSON or bytes that `json::parse` rejects.  A path not bound
in the file system is a missing file. -/
inductive file_on_disk where
  | malformed : file_on_disk
  | valid : J → file_on_disk

/-- The persistence directory: JSON files (the ones `context_manager`
reads and writes), non-JSON paths that merely exist (`plan.md`), and an
append-only log of every JSON write performed, in order. -/
structure fs_state where
  files : List (String × file_on_disk)
  raw_paths : List String
  log : List (String × J)

/-- `context_manager::read_json`: a missing file fails to open and a
file that fails to parse throws inside the `try` block; **both** paths
return `std::nullopt`. -/
def read_json (fs : fs_state) (path : String) : Option J :=
  match assoc_lookup fs.files path with
  | none => none
  | some .malformed => none
  | some (.valid j) => some j

/-- `context_manager::write_json` on its success path (serialize to
`<path>.tmp`, rename over the target); the visible effect is the new
binding for `path`. -/
def write_json (fs : fs_state) (path : String) (j : J) : fs_state :=
  { fs with files := assoc_set fs.files path (.valid j)
            log := fs.log ++ [(path, j)] }

/-- `context_manager::context_path`. -/
def context_path (base id : String) : String := base ++ "/contexts/" ++ id

/-- `conversation_state` struct (`context-manager.h`). -/
structure conversation_state where
  id : String
  created_at : String
  updated_at : String
  messages : J
  metadata : J

/-- `conversation_state::to_json`: `metadata` is emitted only when
non-empty. -/
def conversation_state.to_json (s : conversation_state) : J :=
  J.jobj ([("id", J.jstr s.id),
           ("created_at", J.jstr s.created_at),
           ("updated_at", J.jstr s.updated_at),
           ("messages", s.messages)] ++
          (if s.metadata.isEmptyJ then [] else [("metadata", s.metadata)]))

/-- `conversation_state::from_json` (`none` models a thrown
`json::exception` on an ill-typed field). -/
def conversation_state.from_json (j : J) : Option conversation_state := do
  let id ← j.valueStr? "id" ""
  let created_at ← j.valueStr? "created_at" ""
  let updated_at ← j.valueStr? "updated_at" ""
  let messages ← j.valueJ? "messages" (J.jarr [])
  let metadata ← j.valueJ? "metadata" (J.jobj [])
  pure { id, created_at, updated_at, messages, metadata }

/-- `compact_entry` struct (`context-manager.h`). -/
structure compact_entry where
  timestamp : String
  user_messages : List String
  files_modified : List String
  commands_run : List String
  plan_ref : String
  summary : String
  key_decisions : J
  current_state : String
  pending_tasks : List String

/-- `compact_entry::to_json`: `plan_ref`, `current_state` and
`pending_tasks` are emitted only when non-empty. -/
def compact_entry.to_json (e : compact_entry) : J :=
  J.jobj ([("timestamp", J.jstr e.timestamp),
           ("user_messages", J.jarr (e.user_messages.map J.jstr)),
           ("files_modified", J.jarr (e.files_modified.map J.jstr)),
           ("commands_run", J.jarr (e.commands_run.map J.jstr))] ++
          (if e.plan_ref = "" then [] else [("plan_ref", J.jstr e.plan_ref)]) ++
          [("summary", J.jstr e.summary),
           ("key_decisions", e.key_decisions)] ++
          (if e.current_state = "" then []
           else [("current_state", J.jstr e.current_state)]) ++
          (if e.pending_tasks.isEmpty then []
           else [("pending_tasks", J.jarr (e.pending_tasks.map J.jstr))]))

/-- `context_manager::load_context`. -/
def load_context (fs : fs_state) (base id : String) : Option conversation_state :=
  (read_json fs (context_path base id ++ "/conversation.json")).bind
    conversation_state.from_json

/-- `context_manager::save_context` (the `ensure_directory` call has no
effect in this model). -/
def save_context (fs : fs_state) (base : String) (state : conversation_state) :
    fs_state :=
  write_json fs (context_path base state.id ++ "/conversation.json")
    state.to_json

/-- The `{timestamp, message_count, compact_ref}` record appended to
`metadata.archives` by `compact_context`. -/
def archive_record (ts : String) (message_count : Nat) : J :=
  J.jobj [("timestamp", J.jstr ts),
          ("message_count", J.jnum (message_count : Int)),
          ("compact_ref", J.jstr ("compact_" ++ ts ++ ".json"))]

/-- The context-restoration markdown built by `compact_context` from the
compact entry (the body of the single synthetic system message). -/
def render_compact (c : compact_entry) (plan_section : Bool) : String :=
  "# Previous Context Summary\n\n" ++ c.summary ++ "\n" ++
  (if c.current_state ≠ "" then
     "\n## Current State\n" ++ c.current_state ++ "\n" else "") ++
  (if c.pending_tasks ≠ [] then
     "\n## Pending Tasks\n" ++
       String.join (c.pending_tasks.map (fun t => "- " ++ t ++ "\n"))
   else "") ++
  (if c.files_modified ≠ [] then
     "\n## Files Modified\n" ++
       String.join (c.files_modified.map (fun f => "- " ++ f ++ "\n"))
   else "") ++
  (if plan_section then
     "\n## Active Plan\nplan.md exists - use read_plan tool to review if needed\n"
   else "")

/-- `context_manager::compact_context`, with the wall-clock timestamps
(`timestamp_now()` = `ts`, `iso8601_now()` = `now`) passed in.  `none`
models an uncaught `json::exception` (ill-typed `metadata`/`archives`/
`messages`); `some (false, fs)` is the load-failure return. -/
def compact_context (fs : fs_state) (base id : String) (entry : compact_entry)
    (ts now : String) : Option (Bool × fs_state) :=
  match load_context fs base id with
  | none => some (false, fs)
  | some state =>
    let ctx_path := context_path base id
    let archive_path := ctx_path ++ "/conversation_" ++ ts ++ ".json"
    let fs1 := write_json fs archive_path state.messages
    let compact := { entry with timestamp := ts }
    let compact_path := ctx_path ++ "/compact_" ++ ts ++ ".json"
    let fs2 := write_json fs1 compact_path compact.to_json
    do
      -- state.metadata["archives"]: operator[] converts null to an
      -- object and throws on other non-objects
      let metaKVs ← (match state.metadata with
        | .jobj kvs => some kvs
        | .null => some ([] : List (String × J))
        | _ => none)
      let metaKVs1 := if (J.lookupKV metaKVs "archives").isSome then metaKVs
                      else J.setKV metaKVs "archives" (J.jarr [])
      -- push_back converts null to an array and throws on other
      -- non-arrays
      let record := archive_record ts state.messages.size
      let newArchives ← (match (J.lookupKV metaKVs1 "archives").getD J.null with
        | .jarr xs => some (J.jarr (xs ++ [record]))
        | .null => some (J.jarr [record])
        | _ => none)
      let metaKVs2 := J.setKV metaKVs1 "archives" newArchives
      let plan_section : Bool := (compact.plan_ref != "") ||
        fs.raw_paths.contains (ctx_path ++ "/plan.md")
      let metaKVs3 := if plan_section then
          J.setKV metaKVs2 "plan_ref" (J.jstr "plan.md")
        else metaKVs2
      let content := render_compact compact plan_section
      let newMsgs := J.jarr [J.jobj [("role", J.jstr "system"),
                                     ("content", J.jstr content)]]
      let state2 := { state with messages := newMsgs,
                                 metadata := J.jobj metaKVs3,
                                 updated_at := now }
      let fs3 := save_context fs2 base state2
      pure (true, fs3)

/-- A concrete one-conversation store used to instantiate theorems. -/
def sample_state : conversation_state :=
  { id := "c1", created_at := "t0", updated_at := "t0",
    messages := J.jarr [J.jobj [("role", J.jstr "user"),
                                ("content", J.jstr "hi")]],
    metadata := J.jobj [("archives", J.jarr [])] }

/-- The store holding `sample_state` under base `/d`. -/
def sample_fs : fs_state :=
  { files := [("/d/contexts/c1/conversation.json",
               .valid sample_state.to_json)],
    raw_paths := [], log := [] }

/-- A concrete compact entry used to instantiate theorems. -/
def sample_entry : compact_entry :=
  { timestamp := "", user_messages := ["hi"], files_modified := ["/a"],
    commands_run := ["ls"], plan_ref := "", summary := "done",
    key_decisions := J.jobj [], current_state := "", pending_tasks := [] }

end context

/-! ## String search (`std::string::find`) -/

/-- `std::string::find(pat)` on character lists: index of the first
occurrence of `pat`, or `none` (`npos`). -/
def strFind (pat : List Char) : List Char → Option Nat
  | [] => if pat = [] then some 0 else none
  | c :: rest =>
      if pat.isPrefixOf (c :: rest) then some 0
      else (strFind pat rest).map (· + 1)

/-! ## Subagent manager (`src/tools/agent/subagents/subagent-manager.cpp`) -/

namespace subagent

/-- `agent_stop_reason` enum (agent-loop header). -/
inductive agent_stop_reason where
  | COMPLETED
  | MAX_ITERATIONS
  | USER_CANCELLED
  | AGENT_ERROR
deriving DecidableEq, Repr

/-- `agent_loop_result` struct. -/
structure agent_loop_result where
  stop_reason : agent_stop_reason
  final_response : String
  iterations : Int
deriving DecidableEq, Repr

/-- `session_stats` struct (the two `double` timing fields are not
modelled; no claim concerns them). -/
structure session_stats where
  total_input : Int
  total_output : Int
  total_cached : Int
  current_context_tokens : Int
  n_ctx : Int
  warned_70 : Bool
  warned_80 : Bool
deriving DecidableEq, Repr

/-- Zero-initialized `session_stats`. -/
def session_stats.default : session_stats :=
  { total_input := 0, total_output := 0, total_cached := 0,
    current_context_tokens := 0, n_ctx := 0,
    warned_70 := false, warned_80 := false }

/-- One entry of an assistant message's `tool_calls` array
(`{id, function.name, function.arguments-as-JSON-string}`). -/
structure tool_call where
  id : String
  name : String
  arguments : String
deriving DecidableEq, Repr

/-- A transcript message as constructed by the agent loop: `tool_calls`
is empty when the key is absent, `tool_call_id` is empty except on
tool-role messages. -/
structure message where
  role : String
  content : String
  tool_calls : List tool_call
  tool_call_id : String
deriving DecidableEq, Repr

/-- `MAX_SPAWN_DEPTH` (`subagent-manager.h` and
`agent::config::MAX_SPAWN_DEPTH`). -/
def MAX_SPAWN_DEPTH : Int := 3

/-- `subagent_request` struct. -/
structure subagent_request where
  agent_name : String
  task : String
  context : J
  max_iterations : Int
  persist : Bool
  spawn_depth : Int
  working_dir : String

/-- `subagent_result` struct with its C++ default member values. -/
structure subagent_result where
  success : Bool
  output : String
  artifacts : J
  iterations : Int
  stats : session_stats
  error : String
  files_modified : List String
  commands_run : List String

/-- Default-constructed `subagent_result`. -/
def subagent_result.default : subagent_result :=
  { success := false, output := "", artifacts := J.null, iterations := 0,
    stats := session_stats.default, error := "", files_modified := [],
    commands_run := [] }

/-- The deduplicating push used for `files_modified` (linear scan, keep
first-seen order). -/
def dedup_push (files : List String) (path : String) : List String :=
  if files.contains path then files else files ++ [path]

/-- Processing of a nested result's `files_modified` array: push each
string element (deduplicated); a non-string element makes
`get<std::string>()` throw, aborting the rest but keeping earlier
pushes.  Returns the files and whether the loop finished. -/
def push_files_until_throw : List J → List String → List String × Bool
  | [], files => (files, true)
  | .jstr s :: rest, files => push_files_until_throw rest (dedup_push files s)
  | _ :: _, files => (files, false)

/-- Same for `commands_run` (no deduplication). -/
def push_cmds_until_throw : List J → List String → List String × Bool
  | [], cmds => (cmds, true)
  | .jstr s :: rest, cmds => push_cmds_until_throw rest (cmds ++ [s])
  | _ :: _, cmds => (cmds, false)

/-- The `spawn_agent` branch of `extract_modifications`: union the
nested result's `files_modified` and `commands_run`; a throw while
reading files (caught by the inner catch) skips the commands. -/
def process_spawn_result (rj : J) (files cmds : List String) :
    List String × List String :=
  let fstep :=
    if rj.containsKey "files_modified" then
      push_files_until_throw (J.elements (J.atKey rj "files_modified")) files
    else (files, true)
  if fstep.2 then
    if rj.containsKey "commands_run" then
      (fstep.1,
       (push_cmds_until_throw (J.elements (J.atKey rj "commands_run")) cmds).1)
    else (fstep.1, cmds)
  else (fstep.1, cmds)

/-- One tool call of an assistant message, as processed by
`extract_modifications`; `parse` models `nlohmann::json::parse`
(`none` = throws, caught by the surrounding catch). -/
def handle_tool_call (parse : String → Option J) (messages : List message)
    (tc : tool_call) (acc : List String × List String) :
    List String × List String :=
  match parse tc.arguments with
  | none => acc
  | some args =>
    if tc.name = "write" ∨ tc.name = "edit" then
      match args.valueStr? "file_path" "" with
      | some path => if path ≠ "" then (dedup_push acc.1 path, acc.2) else acc
      | none => acc
    else if tc.name = "bash" then
      match args.valueStr? "command" "" with
      | some cmd =>
          if cmd ≠ "" then
            (acc.1, acc.2 ++
              [if cmd.length > 200 then cmd.take 197 ++ "..." else cmd])
          else acc
      | none => acc
    else if tc.name = "spawn_agent" then
      match messages.find? (fun m => m.role == "tool" && m.tool_call_id == tc.id) with
      | none => acc
      | some rmsg =>
          match parse rmsg.content with
          | none => acc
          | some rj => process_spawn_result rj acc.1 acc.2
    else acc

/-- `subagent_manager::extract_modifications`. -/
def extract_modifications (parse : String → Option J)
    (messages : List message) : List String × List String :=
  messages.foldl
    (fun acc msg =>
      if msg.role = "assistant" then
        msg.tool_calls.foldl
          (fun acc tc => handle_tool_call parse messages tc acc) acc
      else acc)
    ([], [])

/-- `subagent_manager::extract_artifacts`: the last assistant message
with a parseable fenced `json` block that does not contain `"questions"`
sets `artifacts["data"]`. -/
def extract_artifacts (parse : String → Option J)
    (messages : List message) : J :=
  messages.foldl
    (fun artifacts msg =>
      if msg.role = "assistant" then
        match strFind "```json".toList msg.content.toList with
        | none => artifacts
        | some start =>
          let cs := msg.content.toList
          let js0 := start + 7
          let js := if js0 < cs.length ∧ cs.getD js0 ' ' = '\n' then js0 + 1
                    else js0
          match strFind "```".toList (cs.drop js) with
          | none => artifacts
          | some len =>
            match parse (String.mk ((cs.drop js).take len)) with
            | none => artifacts
            | some parsed =>
                if parsed.containsKey "questions" then artifacts
                else J.jobj (J.setKV
                  (match artifacts with | .jobj kvs => kvs | _ => [])
                  "data" parsed)
      else artifacts)
    (J.jobj [])

/-- External collaborators of `subagent_manager::spawn`: the registry,
the file system (`resolve_path`), the nlohmann parser/serializer, the
per-agent system prompt built from the tool registry, and the freshly
constructed child agent loop's behaviour. -/
structure spawn_env where
  get_agent_def : String → Option agent_registry.agent_definition
  resolve_dir : String → String → Option String
  dump : J → String
  gen_system_prompt : agent_registry.agent_definition → String
  run_child : String → agent_loop_result
  child_stats : session_stats
  child_messages : List message
  parse : String → Option J

/-- Observable mutable state of the subagent manager: the spawn-depth
stack (top at the head), plus counters for constructed child loops and
KV-cache clears. -/
structure spawn_state where
  spawn_depth_stack : List Int
  loops_constructed : Nat
  kv_clears : Nat
deriving DecidableEq, Repr

/-- `subagent_manager::spawn` (`working_dir` is the manager's
`working_dir_`; console display calls are not modelled). -/
def spawn (env : spawn_env) (working_dir : String) (req : subagent_request)
    (st : spawn_state) : subagent_result × spawn_state :=
  if req.spawn_depth ≥ MAX_SPAWN_DEPTH then
    ({ subagent_result.default with
        error := "Maximum spawn depth (" ++ toString MAX_SPAWN_DEPTH ++
          ") exceeded. Cannot spawn more subagents." }, st)
  else
    match env.get_agent_def req.agent_name with
    | none =>
        ({ subagent_result.default with
            error := "Unknown agent: " ++ req.agent_name }, st)
    | some agent_def =>
      let st1 := { st with kv_clears := st.kv_clears + 1 }
      let st2 := { st1 with
        spawn_depth_stack := (req.spawn_depth + 1) :: st1.spawn_depth_stack }
      match (if req.working_dir ≠ "" then
               env.resolve_dir req.working_dir working_dir
             else some working_dir) with
      | none =>
          ({ subagent_result.default with
              error := "working_dir does not exist or is not a directory: " ++
                req.working_dir },
           { st2 with spawn_depth_stack := st2.spawn_depth_stack.tail })
      | some _sub_working_dir =>
        let st3 := { st2 with loops_constructed := st2.loops_constructed + 1 }
        let task_prompt := req.task ++
          (if req.context.isEmptyJ then ""
           else "\n\n## Context\n\n```json\n" ++ env.dump req.context ++
             "\n```")
        let full_prompt := env.gen_system_prompt agent_def ++ "\n\n# Task\n\n"
          ++ task_prompt
        let loop_result := env.run_child full_prompt
        let mods := extract_modifications env.parse env.child_messages
        let st4 := { st3 with
          spawn_depth_stack := st3.spawn_depth_stack.tail }
        let st5 := { st4 with kv_clears := st4.kv_clears + 1 }
        ({ success := decide (loop_result.stop_reason = .COMPLETED),
           output := loop_result.final_response,
           artifacts := extract_artifacts env.parse env.child_messages,
           iterations := loop_result.iterations,
           stats := env.child_stats,
           error := match loop_result.stop_reason with
             | .MAX_ITERATIONS => "Subagent reached max iterations"
             | .USER_CANCELLED => "Subagent was cancelled"
             | .AGENT_ERROR => "Subagent encountered an error"
             | .COMPLETED => "",
           files_modified := mods.1,
           commands_run := mods.2 }, st5)

/-- The longest all-string prefix of a JSON list, as strings (what the
element loop reads before the first type error). -/
def strings_pref : List J → List String
  | [] => []
  | .jstr s :: rest => s :: strings_pref rest
  | _ :: _ => []

/-- The files contributed by one tool call, as the specification
describes them (`write`/`edit` file paths; `spawn_agent` nested
results). -/
def raw_call_files (parse : String → Option J) (messages : List message)
    (tc : tool_call) : List String :=
  match parse tc.arguments with
  | none => []
  | some args =>
    if tc.name = "write" ∨ tc.name = "edit" then
      match args.valueStr? "file_path" "" with
      | some path => if path ≠ "" then [path] else []
      | none => []
    else if tc.name = "bash" then []
    else if tc.name = "spawn_agent" then
      match (messages.find?
          (fun m => m.role == "tool" && m.tool_call_id == tc.id)).bind
          (fun rmsg => parse rmsg.content) with
      | none => []
      | some rj =>
        if rj.containsKey "files_modified" then
          strings_pref (J.elements (J.atKey rj "files_modified"))
        else []
    else []

/-- The commands contributed by one tool call, as the specification
describes them (`bash` commands truncated at 200 characters;
`spawn_agent` nested results, reachable only when the nested file list
was read without a type error). -/
def raw_call_cmds (parse : String → Option J) (messages : List message)
    (tc : tool_call) : List String :=
  match parse tc.arguments with
  | none => []
  | some args =>
    if tc.name = "write" ∨ tc.name = "edit" then []
    else if tc.name = "bash" then
      match args.valueStr? "command" "" with
      | some cmd =>
          if cmd ≠ "" then
            [if cmd.length > 200 then cmd.take 197 ++ "..." else cmd]
          else []
      | none => []
    else if tc.name = "spawn_agent" then
      match (messages.find?
          (fun m => m.role == "tool" && m.tool_call_id == tc.id)).bind
          (fun rmsg => parse rmsg.content) with
      | none => []
      | some rj =>
        if (!rj.containsKey "files_modified" ||
            (J.elements (J.atKey rj "files_modified")).all J.isStr) then
          if rj.containsKey "commands_run" then
            strings_pref (J.elements (J.atKey rj "commands_run"))
          else []
        else []
    else []

/-- All file contributions of a transcript, in encounter order (before
deduplication). -/
def raw_files_from (parse : String → Option J) (allmsgs : List message)
    (msgs : List message) : List String :=
  (msgs.map (fun m =>
    if m.role = "assistant" then
      (m.tool_calls.map (raw_call_files parse allmsgs)).flatten
    else [])).flatten

/-- All command contributions of a transcript, in encounter order. -/
def raw_cmds_from (parse : String → Option J) (allmsgs : List message)
    (msgs : List message) : List String :=
  (msgs.map (fun m =>
    if m.role = "assistant" then
      (m.tool_calls.map (raw_call_cmds parse allmsgs)).flatten
    else [])).flatten

/-- First-seen-order deduplication, as the specification describes it. -/
def dedup_first (l : List String) : List String := l.foldl dedup_push []

/-- A concrete environment used to instantiate spawn theorems. -/
def sample_env : spawn_env :=
  { get_agent_def := fun _ => none,
    resolve_dir := fun _ _ => none,
    dump := fun _ => "",
    gen_system_prompt := fun _ => "",
    run_child := fun _ =>
      { stop_reason := .COMPLETED, final_response := "", iterations := 0 },
    child_stats := session_stats.default,
    child_messages := [],
    parse := fun _ => none }

/-- A spawn request already at the maximum depth. -/
def sample_deep_request : subagent_request :=
  { agent_name := "explorer-agent", task := "explore", context := J.null,
    max_iterations := 20, persist := false, spawn_depth := 3,
    working_dir := "" }

/-- The manager state of a depth-3 spawn chain. -/
def sample_spawn_state : spawn_state :=
  { spawn_depth_stack := [3, 2, 1], loops_constructed := 3, kv_clears := 3 }

end subagent

/-! ## Planning Q&A parsing (`plan-questions.cpp`), plan formatting
(`plan-format.cpp`) and the `/plan` command workflow -/

namespace planning

/-- `plan_question` struct (`plan-questions.h`). -/
structure plan_question where
  id : Int
  text : String
  options : List String
  selected_answer : String
  is_custom : Bool
  selected_option_index : Int
deriving DecidableEq, Repr

/-- `qa_session` struct (`plan-questions.h`). -/
structure qa_session where
  questions : List plan_question
  current_question_index : Int
deriving DecidableEq, Repr

/-- The empty `qa_session{}`. -/
def qa_session.empty : qa_session := { questions := [], current_question_index := 0 }

/-- The string elements of a questions `options`/`answers` array
(non-strings are skipped after an `is_string` check). -/
def collect_strings (l : List J) : List String := l.filterMap J.getString?

/-- The question loop of `parse_questions_from_json`; `idx` is the
running default id; `none` models a thrown `json::exception`
(ill-typed `id`/`text`/`question`). -/
def parse_q_loop : List J → Int → Option (List plan_question)
  | [], _ => some []
  | qj :: rest, idx => do
    let qid ← qj.valueInt? "id" idx
    let text ←
      if qj.containsKey "text" then (J.atKey qj "text").getString?
      else if qj.containsKey "question" then (J.atKey qj "question").getString?
      else some ""
    let options :=
      if qj.containsKey "options" ∧ (J.atKey qj "options").isArr then
        collect_strings (J.elements (J.atKey qj "options"))
      else if qj.containsKey "answers" ∧ (J.atKey qj "answers").isArr then
        collect_strings (J.elements (J.atKey qj "answers"))
      else []
    let restq ← parse_q_loop rest (idx + 1)
    pure (if text ≠ "" ∧ options ≠ [] then
      ({ id := qid, text := text, options := options, selected_answer := "",
         is_custom := false, selected_option_index := -1 } : plan_question)
        :: restq
      else restq)

/-- `planning::parse_questions_from_json` (`plan-questions.cpp`). -/
def parse_questions_from_json (agent_output : J) : Option qa_session :=
  if agent_output.containsKey "questions" ∧
      (J.atKey agent_output "questions").isArr then
    (parse_q_loop (J.elements (J.atKey agent_output "questions")) 1).map
      (fun qs => { questions := qs, current_question_index := 0 })
  else if agent_output.isArr then
    (parse_q_loop (J.elements agent_output) 1).map
      (fun qs => { questions := qs, current_question_index := 0 })
  else some qa_session.empty

/-- `plan_data` struct (`plan-format.h`). -/
structure plan_data where
  task_summary : String
  created_at : String
  version : Int
  status : String
  executive_summary : String
  design_decisions : List (String × String)
  plan_body : String
deriving DecidableEq, Repr

/-- `plan_formatter::generate` (`plan-format.cpp`): header, metadata,
then executive summary / design decisions / plan body, each only when
non-empty. -/
def plan_formatter_generate (d : plan_data) : String :=
  "# Implementation Plan: " ++ d.task_summary ++ "\n\n" ++
  "## Metadata\n" ++
  "- Created: " ++ d.created_at ++ "\n" ++
  "- Version: " ++ toString d.version ++ "\n" ++
  "- Status: " ++ d.status ++ "\n\n" ++
  (if d.executive_summary ≠ "" then
     "## Executive Summary\n\n" ++ d.executive_summary ++ "\n\n" else "") ++
  (if d.design_decisions ≠ [] then
     "## Design Decisions\n\nBased on the following user preferences:\n\n" ++
       String.join (d.design_decisions.map
         (fun qa => "- **" ++ qa.1 ++ "**: " ++ qa.2 ++ "\n")) ++ "\n"
   else "") ++
  (if d.plan_body ≠ "" then
     d.plan_body ++ (if d.plan_body.back ≠ '\n' then "\n" else "")
   else "")

end planning

namespace workflow

/-- The whitespace characters skipped around fenced JSON content in
`extract_questions`. -/
def ws_char (c : Char) : Bool := c = '\n' || c = '\r' || c = ' '

/-- Trailing-whitespace trim of the fenced content. -/
def rtrim_ws (l : List Char) : List Char := (l.reverse.dropWhile ws_char).reverse

/-- The balanced-brace scan of `extract_questions` (strategy 2): walks
characters with a brace counter, an in-string flag and an escape flag;
returns the number of characters up to and including the brace closing
the object, or `none` when the scan exhausts the input. -/
def brace_scan : List Char → Int → Bool → Bool → Nat → Option Nat
  | [], _, _, _, _ => none
  | c :: rest, brace_count, in_string, escape_next, consumed =>
    if escape_next then
      brace_scan rest brace_count in_string false (consumed + 1)
    else if c = '\\' ∧ in_string then
      brace_scan rest brace_count in_string true (consumed + 1)
    else if c = '"' then
      brace_scan rest brace_count (!in_string) escape_next (consumed + 1)
    else if ¬in_string ∧ c = '{' then
      brace_scan rest (brace_count + 1) in_string escape_next (consumed + 1)
    else if ¬in_string ∧ c = '}' then
      if brace_count = 1 then some (consumed + 1)
      else brace_scan rest (brace_count - 1) in_string escape_next (consumed + 1)
    else
      brace_scan rest brace_count in_string escape_next (consumed + 1)

/-- Stage 1 of `extract_questions` (`cmd-plan`): the characters of the
candidate JSON string — first a ```` ```json ```` fence, then a
```` ```JSON ```` fence, then the balanced-brace fallback from the
literal `{"questions"`; empty when nothing matches. -/
def extract_question_json_chars (cs : List Char) : List Char :=
  let fence :=
    match strFind "```json".toList cs with
    | some i => some i
    | none => strFind "```JSON".toList cs
  let json1 : List Char :=
    match fence with
    | none => []
    | some fence_start =>
      let rest := (cs.drop (fence_start + 7)).dropWhile ws_char
      match strFind "```".toList rest with
      | none => []
      | some j => rtrim_ws (rest.take j)
  if json1 ≠ [] then json1
  else
    match strFind "\x7b\"questions\"".toList cs with
    | none => []
    | some direct_start =>
      match brace_scan (cs.drop direct_start) 0 false false 0 with
      | none => []
      | some n => (cs.drop direct_start).take n

/-- `extract_questions` (`cmd-plan`): extract the JSON string, parse it
(`parse` models `nlohmann::json::parse`; `none` = throws), and convert;
any failure yields the empty Q&A session. -/
def extract_questions (parse : String → Option J) (agent_output : String) :
    planning.qa_session :=
  let js := extract_question_json_chars agent_output.toList
  if js.isEmpty then planning.qa_session.empty
  else
    match parse (String.mk js) with
    | none => planning.qa_session.empty
    | some j =>
      match planning.parse_questions_from_json j with
      | none => planning.qa_session.empty
      | some qa => qa

/-- ASCII lower-casing, to state what a case-insensitive fence search
would find. -/
def lower_ascii (c : Char) : Char :=
  if 'A' ≤ c ∧ c ≤ 'Z' then Char.ofNat (c.toNat + 32) else c

/-- Spec-side predicate: the text contains a ```` ```json ```` fence
opener under case-insensitive comparison. -/
def ci_fence_found (s : String) : Bool :=
  (strFind "```json".toList (s.toList.map lower_ascii)).isSome

/-- Observable file-system effects of the plan-saving code. -/
inductive fs_event where
  | create_dirs : String → fs_event
  | write_file : String → String → fs_event
  | write_temp : String → String → fs_event
  | rename : String → String → fs_event
deriving DecidableEq, Repr

/-- `fs::path(p).parent_path()` for slash-separated paths. -/
def parent_path (p : String) : String :=
  String.mk (((p.toList.reverse.dropWhile (fun c => c ≠ '/')).drop 1).reverse)

/-- `save_plan_file` (`cmd-plan`): ensure the directory, then write the
content with a plain `std::ofstream` — one direct write, no temp file
and no rename. -/
def save_plan_file (plan_path content : String) (parent_exists : Bool) :
    Bool × List fs_event :=
  (true,
   (if parent_exists then [] else [fs_event.create_dirs (parent_path plan_path)])
     ++ [fs_event.write_file plan_path content])

/-- The approval branch of `run_planning_workflow` (`cmd-plan`,
`prompt_approval` returned true): transition to APPROVED, build the
final markdown via `plan_formatter::generate` (with
`design_decisions` left empty, as in the source), save the plan file,
and persist the session. -/
def approve_plan (base : String) (sess : planning.planning_session)
    (plan_content now : String) (parent_exists : Bool) :
    planning.planning_session × List fs_event :=
  let s1 := (planning.transition_to sess .APPROVED now).2
  let data : planning.plan_data :=
    { task_summary := s1.task, created_at := s1.created_at,
      version := s1.iteration + 1, status := "approved",
      executive_summary := "", design_decisions := [],
      plan_body := plan_content }
  let final_plan := planning.plan_formatter_generate data
  let plan_path := base ++ "/contexts/" ++ s1.context_id ++ "/plan.md"
  let saved := save_plan_file plan_path final_plan parent_exists
  if saved.1 then
    ({ s1 with plan_path := plan_path }, saved.2)
  else
    (s1, saved.2)

/-- A session sitting at AWAITING_APPROVAL with answered questions. -/
def approval_session : planning.planning_session :=
  { state := .AWAITING_APPROVAL, context_id := "c1", task := "add a cache",
    exploration_findings := "findings", plan_content := "## Phase 1\nstep",
    questions := J.jarr [J.jobj [("id", J.jnum 1), ("text", J.jstr "Which?"),
      ("options", J.jarr [J.jstr "A", J.jstr "B"])]],
    answers := J.jarr [J.jobj [("id", J.jnum 1), ("text", J.jstr "Which?"),
      ("selected_answer", J.jstr "A")]],
    iteration := 1, plan_path := "/d/contexts/c1/plan.md",
    created_at := "t0", updated_at := "t0" }

/-- A well-formed questions object whose text form defeats both
extraction strategies: the fence is spelled ```` ```Json ```` (mixed
case) and a space follows the opening brace, so the literal
`{"questions"` never occurs. -/
def cex_body : String :=
  "\x7b \"questions\": [ \x7b \"id\": 1, \"text\": \"T\", \"options\": [\"a\"] \x7d ] \x7d"

/-- The JSON value `cex_body` denotes. -/
def cex_json : J :=
  J.jobj [("questions", J.jarr [J.jobj [("id", J.jnum 1),
    ("text", J.jstr "T"), ("options", J.jarr [J.jstr "a"])]])]

/-- A parse oracle that recognises exactly `cex_body`. -/
def cex_parse (s : String) : Option J :=
  if s = cex_body then some cex_json else none

/-- A planning-agent reply using a mixed-case fence. -/
def cex_input : String :=
  "Plan text.\n```Json\n" ++ cex_body ++ "\n```\n"

end workflow

/-! # Theorems -/

namespace planning

open planning_state

/-- A string outside the nine recognized state strings maps to `IDLE`. -/
theorem string_to_state_of_unrecognized (s : String)
    (h : s ∉ recognized_state_strings) : string_to_state s = IDLE := by
  unfold string_to_state
  split_ifs with h1 h2 h3 h4 h5 h6 h7 h8 h9 <;>
    first
      | rfl
      | (exfalso; apply h; simp [recognized_state_strings, *])

/-- `from_json` always sets the state to `string_to_state` of the
`"state"` field (default `"idle"`). -/
theorem from_json_state (j : J) (sess : planning_session)
    (hload : planning_session.from_json j = some sess) :
    ∃ str, j.valueStr? "state" "idle" = some str ∧
      sess.state = string_to_state str := by
  simp only [planning_session.from_json, Option.bind_eq_some, Option.pure_def,
    Option.some.injEq, bind, Option.bind_eq_some] at hload
  obtain ⟨str, hstr, _, _, _, _, _, _, _, _, _, _, _, _, _, _, _, _, _, _,
    hsess⟩ := hload
  obtain ⟨_, _, hrec⟩ := hsess
  exact ⟨str, hstr, by rw [← hrec]⟩

/-- C1 (counterexample): `planning_state_machine::abort` mutates the
session without a validated transition.  On a session in state `IDLE`,
`abort` succeeds and persists state `ABORTED`, although
`(IDLE, ABORTED)` is not in the transition table, so the claim that the
session mutates only through validated transitions and that any other
requested change fails and leaves the session unchanged is false. -/
theorem C1_counterexample :
    (abort planning_session.default "2026-01-01T00:00:00").1 = true ∧
    (abort planning_session.default "2026-01-01T00:00:00").2.state = ABORTED ∧
    validate_transition IDLE ABORTED = false ∧
    (IDLE, ABORTED) ∉ claimed_transition_table := by
  refine ⟨rfl, rfl, rfl, by decide⟩

/-- C1 (amended): `transition_to` accepts exactly the pairs of the §4.8
transition table — an invalid request is a no-op returning failure that
leaves the session unchanged, a valid one persists the new state — but
`abort` and `complete` bypass validation and unconditionally persist
`ABORTED` (resp. `APPROVED`) from any state. -/
theorem C1_transitions (s : planning_session) (t : planning_state)
    (now : String) :
    (validate_transition s.state t = false → transition_to s t now = (false, s)) ∧
    (validate_transition s.state t = true →
      transition_to s t now = (true, { s with state := t, updated_at := now })) ∧
    (∀ f u, validate_transition f u = true ↔ (f, u) ∈ claimed_transition_table) ∧
    abort s now = (true, { s with state := ABORTED, updated_at := now }) ∧
    complete s now = (true, { s with state := APPROVED, updated_at := now }) := by
  refine ⟨?_, ?_, by decide, rfl, rfl⟩
  · intro h; simp [transition_to, h]
  · intro h; simp [transition_to, h]

/-- Witness for `C1_transitions`: a valid request (`IDLE → EXPLORING`)
succeeds and an invalid one (`IDLE → APPROVED`) is a rejected no-op. -/
theorem C1_transitions_witness :
    transition_to planning_session.default EXPLORING "t1" =
      (true, { planning_session.default with state := EXPLORING, updated_at := "t1" }) ∧
    transition_to planning_session.default APPROVED "t1" =
      (false, planning_session.default) :=
  ⟨(C1_transitions planning_session.default EXPLORING "t1").2.1 rfl,
   (C1_transitions planning_session.default APPROVED "t1").1 rfl⟩

/-- C10: loading a persisted `plan_state.json` whose `state` field is
missing or is a string outside the nine recognized state strings yields
a session in state `IDLE`, which reports `is_active = false` and
`is_interactive = false` (a fresh, non-resumable session). -/
theorem C10_unrecognized_state_is_idle (j : J) (sess : planning_session)
    (hload : planning_session.from_json j = some sess)
    (hstate : J.containsKey j "state" = false ∨
      ∃ str, j.valueStr? "state" "idle" = some str ∧
        str ∉ recognized_state_strings) :
    sess.state = IDLE ∧ is_active sess = false ∧ is_interactive sess = false := by
  obtain ⟨str, hstr, hst⟩ := from_json_state j sess hload
  have hidle : sess.state = IDLE := by
    rcases hstate with hmiss | ⟨str', hstr', hnot⟩
    · -- the "state" key is absent, so the default "idle" is used
      cases j with
      | jobj kvs =>
        have : J.lookupKV kvs "state" = none := by
          by_contra hne
          rw [J.containsKey] at hmiss
          cases h : J.lookupKV kvs "state" with
          | none => exact hne h
          | some v => rw [h] at hmiss; simp at hmiss
        rw [J.valueStr?, this] at hstr
        simp at hstr
        rw [hst, ← hstr]
        rfl
      | null => simp [J.valueStr?] at hstr
      | jbool b => simp [J.valueStr?] at hstr
      | jnum n => simp [J.valueStr?] at hstr
      | jstr s => simp [J.valueStr?] at hstr
      | jarr xs => simp [J.valueStr?] at hstr
    · rw [hstr'] at hstr
      cases hstr
      rw [hst]
      exact string_to_state_of_unrecognized _ hnot
  refine ⟨hidle, ?_, ?_⟩ <;> simp [is_active, is_interactive, hidle]

/-- Witness for `C10_unrecognized_state_is_idle`: a concrete persisted
object with `state = "bogus"`. -/
theorem C10_witness :
    ({ planning_session.default with state := string_to_state "bogus" } :
        planning_session).state = IDLE ∧
    is_active { planning_session.default with state := string_to_state "bogus" } = false ∧
    is_interactive { planning_session.default with state := string_to_state "bogus" } = false :=
  C10_unrecognized_state_is_idle (J.jobj [("state", J.jstr "bogus")])
    { planning_session.default with state := string_to_state "bogus" }
    rfl (Or.inr ⟨"bogus", rfl, by decide⟩)

end planning

namespace agent_registry

/-- Unfolding: `name_after` on a leading hyphen hands over to
`name_core`. -/
theorem name_after_hyphen (rest : List Char) :
    name_after ('-' :: rest) = name_core rest := by
  simp [name_after]

/-- Unfolding: `name_after` on a non-hyphen character. -/
theorem name_after_cons (c : Char) (rest : List Char) (hc : c ≠ '-') :
    name_after (c :: rest) = (is_name_char c && name_after rest) := by
  simp [name_after, hc]

/-- The `prev_hyphen` loop agrees with the regex matcher on lists that do
not end in a hyphen. -/
theorem loop_eq_regex (cs : List Char) (hlast : cs.getLast? ≠ some '-') :
    validate_name_loop false cs = name_after cs ∧
    (cs ≠ [] → validate_name_loop true cs = name_core cs) := by
  induction cs with
  | nil => exact ⟨rfl, fun h => absurd rfl h⟩
  | cons c rest ih =>
    have hlast' : rest.getLast? ≠ some '-' := by
      cases rest with
      | nil => simp
      | cons d r => rwa [List.getLast?_cons_cons] at hlast
    by_cases hc : c = '-'
    · subst hc
      have hrest_ne : rest ≠ [] := by
        intro h0; subst h0; simp at hlast
      obtain ⟨ih1, ih2⟩ := ih hlast'
      constructor
      · have hL : validate_name_loop false ('-' :: rest) =
            validate_name_loop true rest := by
          simp [validate_name_loop]
        rw [hL, name_after_hyphen]
        exact ih2 hrest_ne
      · intro _
        have hL : validate_name_loop true ('-' :: rest) = false := by
          simp [validate_name_loop]
        rw [hL]
        simp [name_core, is_name_char, is_lower_char, is_digit_char]
    · obtain ⟨ih1, ih2⟩ := ih hlast'
      by_cases halnum : (is_lower_char c || is_digit_char c) = true
      · constructor
        · have hL : validate_name_loop false (c :: rest) =
              validate_name_loop false rest := by
            simp [validate_name_loop, hc, halnum]
          rw [hL, name_after_cons c rest hc, ih1]
          simp [is_name_char, halnum]
        · intro _
          have hL : validate_name_loop true (c :: rest) =
              validate_name_loop false rest := by
            simp [validate_name_loop, hc, halnum]
          rw [hL, ih1]
          simp [name_core, is_name_char, halnum]
      · constructor
        · have hL : validate_name_loop false (c :: rest) = false := by
            simp [validate_name_loop, hc, halnum]
          rw [hL, name_after_cons c rest hc]
          simp [is_name_char, halnum]
        · intro _
          have hL : validate_name_loop true (c :: rest) = false := by
            simp [validate_name_loop, hc, halnum]
          rw [hL]
          simp [name_core, is_name_char, halnum]

/-- A list accepted by the regex matcher ends in `[a-z0-9]`. -/
theorem name_core_last (cs : List Char) :
    (name_core cs = true → ∀ c, cs.getLast? = some c → is_name_char c = true) ∧
    (name_after cs = true → ∀ c, cs.getLast? = some c → is_name_char c = true) := by
  induction cs with
  | nil => exact ⟨fun _ c h => by simp at h, fun _ c h => by simp at h⟩
  | cons a rest ih =>
    constructor
    · intro h c hc
      simp only [name_core, Bool.and_eq_true] at h
      cases rest with
      | nil =>
        simp only [List.getLast?_singleton, Option.some.injEq] at hc
        subst hc
        exact h.1
      | cons d r =>
        rw [List.getLast?_cons_cons] at hc
        exact ih.2 h.2 c hc
    · intro h c hc
      by_cases ha : a = '-'
      · subst ha
        rw [name_after_hyphen] at h
        cases rest with
        | nil => simp [name_core] at h
        | cons d r =>
          rw [List.getLast?_cons_cons] at hc
          exact ih.1 h c hc
      · rw [name_after_cons a rest ha, Bool.and_eq_true] at h
        cases rest with
        | nil =>
          simp only [List.getLast?_singleton, Option.some.injEq] at hc
          subst hc
          exact h.1
        | cons d r =>
          rw [List.getLast?_cons_cons] at hc
          exact ih.2 h.2 c hc

/-- `validate_name` equals the regex matcher plus the length bound. -/
theorem validate_name_eq_regex (s : String) :
    validate_name s = (name_core s.toList && decide (s.length ≤ 64)) := by
  have hlen : s.length = s.toList.length := rfl
  unfold validate_name
  split_ifs with h1 h2
  · rcases h1 with he | hg
    · have h0 : s.toList = [] := by simpa using he
      rw [h0]
      simp [name_core]
    · have hd : decide (s.length ≤ 64) = false := by
        simp only [decide_eq_false_iff_not, not_le, hlen]
        exact hg
      simp [hd]
  · push_neg at h1
    suffices hnc : name_core s.toList = false by
      simp only [hnc, Bool.false_and]
    rcases h2 with hh | hl
    · cases hcs : s.toList with
      | nil => simp [name_core]
      | cons c rest =>
        rw [hcs] at hh
        simp only [List.headD_cons] at hh
        subst hh
        simp [name_core, is_name_char, is_lower_char, is_digit_char]
    · cases hnc : name_core s.toList with
      | false => rfl
      | true =>
        exfalso
        have hne : s.toList ≠ [] := by
          intro h0; rw [h0] at hnc; simp [name_core] at hnc
        rw [List.getLastD_eq_getLast?] at hl
        cases hgl : s.toList.getLast? with
        | none => exact hne (List.getLast?_eq_none_iff.mp hgl)
        | some x =>
          rw [hgl] at hl
          simp only [Option.getD_some] at hl
          subst hl
          have := (name_core_last s.toList).1 hnc '-' hgl
          simp [is_name_char, is_lower_char, is_digit_char] at this
  · push_neg at h1 h2
    obtain ⟨hne, h64⟩ := h1
    obtain ⟨hh, hl⟩ := h2
    have hne' : s.toList ≠ [] := by
      intro h0; rw [h0] at hne; simp at hne
    have hlast : s.toList.getLast? ≠ some '-' := by
      intro hgl
      apply hl
      rw [List.getLastD_eq_getLast?, hgl, Option.getD_some]
    have hloop := (loop_eq_regex s.toList hlast).1
    have h64' : decide (s.length ≤ 64) = true := by
      simp only [decide_eq_true_eq, hlen]
      omega
    rw [hloop, h64', Bool.and_true]
    cases hcs : s.toList with
    | nil => exact absurd hcs hne'
    | cons c rest =>
      rw [hcs] at hh
      simp only [List.headD_cons] at hh
      rw [name_after_cons c rest hh]
      simp only [name_core]

end agent_registry

namespace agent_registry

/-- C8: `agent_registry::validate_name` accepts exactly the strings
matching `^[a-z0-9]+(-[a-z0-9]+)*$` with length between 1 and 64;
in particular `a`, `a-b`, `a1-b2` pass, while `-a`, `a-`, `a--b`, `A`,
`a_b` and a 65-character string fail. -/
theorem C8_validate_name (s : String) :
    (validate_name s = (name_core s.toList && decide (s.length ≤ 64))) ∧
    (validate_name s = true → 1 ≤ s.length ∧ s.length ≤ 64) ∧
    validate_name "a" = true ∧ validate_name "a-b" = true ∧
    validate_name "a1-b2" = true ∧ validate_name "-a" = false ∧
    validate_name "a-" = false ∧ validate_name "a--b" = false ∧
    validate_name "A" = false ∧ validate_name "a_b" = false ∧
    validate_name (String.mk (List.replicate 65 'a')) = false := by
  refine ⟨validate_name_eq_regex s, ?_, by decide, by decide, by decide,
    by decide, by decide, by decide, by decide, by decide, by decide⟩
  intro h
  rw [validate_name_eq_regex s, Bool.and_eq_true] at h
  have hlen : s.length = s.toList.length := rfl
  constructor
  · have hne : s.toList ≠ [] := by
      intro h0
      have := h.1
      rw [h0] at this
      simp [name_core] at this
    rw [hlen]
    cases hcs : s.toList with
    | nil => exact absurd hcs hne
    | cons c rest => simp
  · simpa using h.2

/-- Witness for `C8_validate_name`: the name `a-b` is accepted, so its
length is within `[1, 64]`. -/
theorem C8_validate_name_witness :
    1 ≤ ("a-b" : String).length ∧ ("a-b" : String).length ≤ 64 :=
  (C8_validate_name "a-b").2.1 (by decide)

end agent_registry

/-- Looking up the key just set. -/
theorem assoc_lookup_set_self {α : Type} (m : List (String × α)) (k : String)
    (v : α) : assoc_lookup (assoc_set m k v) k = some v := by
  induction m with
  | nil => simp [assoc_set, assoc_lookup]
  | cons kv rest ih =>
    obtain ⟨k', w⟩ := kv
    by_cases h : k' = k
    · subst h; simp [assoc_set, assoc_lookup]
    · simp [assoc_set, assoc_lookup, h, ih]

/-- Setting one key does not affect lookups of another. -/
theorem assoc_lookup_set_other {α : Type} (m : List (String × α))
    (k k' : String) (v : α) (h : k' ≠ k) :
    assoc_lookup (assoc_set m k v) k' = assoc_lookup m k' := by
  induction m with
  | nil =>
    simp [assoc_set, assoc_lookup]
    exact Ne.symm h
  | cons kv rest ih =>
    obtain ⟨k'', w⟩ := kv
    by_cases h2 : k'' = k
    · subst h2
      simp [assoc_set, assoc_lookup, Ne.symm h]
    · by_cases h3 : k'' = k'
      · subst h3; simp [assoc_set, assoc_lookup, h2]
      · simp [assoc_set, assoc_lookup, h2, h3, ih]

/-- `J.setKV` analogue of `assoc_lookup_set_self`. -/
theorem J.lookupKV_setKV_self (m : List (String × J)) (k : String) (v : J) :
    J.lookupKV (J.setKV m k v) k = some v := by
  induction m with
  | nil => simp [J.setKV, J.lookupKV]
  | cons kv rest ih =>
    obtain ⟨k', w⟩ := kv
    by_cases h : k' = k
    · subst h; simp [J.setKV, J.lookupKV]
    · simp [J.setKV, J.lookupKV, h, ih]

/-- `J.setKV` analogue of `assoc_lookup_set_other`. -/
theorem J.lookupKV_setKV_other (m : List (String × J)) (k k' : String) (v : J)
    (h : k' ≠ k) : J.lookupKV (J.setKV m k v) k' = J.lookupKV m k' := by
  induction m with
  | nil => simp [J.setKV, J.lookupKV, Ne.symm h]
  | cons kv rest ih =>
    obtain ⟨k'', w⟩ := kv
    by_cases h2 : k'' = k
    · subst h2
      simp [J.setKV, J.lookupKV, Ne.symm h]
    · by_cases h3 : k'' = k'
      · subst h3; simp [J.setKV, J.lookupKV, h2]
      · simp [J.setKV, J.lookupKV, h2, h3, ih]

/-- `J.setKV` never produces an empty binding list. -/
theorem J.setKV_ne_nil (m : List (String × J)) (k : String) (v : J) :
    J.setKV m k v ≠ [] := by
  cases m with
  | nil => simp [J.setKV]
  | cons kv rest =>
    obtain ⟨k', w⟩ := kv
    by_cases h : k' = k <;> simp [J.setKV, h]

/-- Appending on the left preserves string inequality of the tails. -/
theorem string_append_left_ne (a : String) {b c : String} (h : b ≠ c) :
    a ++ b ≠ a ++ c := by
  intro he
  apply h
  have hd : (a ++ b).data = (a ++ c).data := by rw [he]
  rw [String.data_append, String.data_append] at hd
  exact String.ext (List.append_cancel_left hd)

/-- Two list concatenations differ when neither left part is a prefix of
the other. -/
theorem list_append_ne {l1 l2 x y : List Char}
    (h1 : ¬ l1 <+: l2) (h2 : ¬ l2 <+: l1) : l1 ++ x ≠ l2 ++ y := by
  intro h
  rcases List.append_eq_append_iff.mp h with ⟨k, hk, _⟩ | ⟨k, hk, _⟩
  · exact h1 ⟨k, hk.symm⟩
  · exact h2 ⟨k, hk.symm⟩

/-- `a ++ p1 ++ t1 ≠ a ++ p2 ++ t2` when neither of `p1`, `p2` prefixes
the other. -/
theorem string_append2_ne (a p1 p2 t1 t2 : String)
    (h1 : ¬ p1.data <+: p2.data) (h2 : ¬ p2.data <+: p1.data) :
    a ++ p1 ++ t1 ≠ a ++ p2 ++ t2 := by
  rw [String.append_assoc a p1 t1, String.append_assoc a p2 t2]
  apply string_append_left_ne
  intro he
  have hd : (p1 ++ t1).data = (p2 ++ t2).data := by rw [he]
  rw [String.data_append, String.data_append] at hd
  exact list_append_ne h1 h2 hd

namespace context

/-- The archive path differs from the conversation path. -/
theorem archive_ne_conv (base id ts : String) :
    context_path base id ++ "/conversation_" ++ ts ++ ".json" ≠
      context_path base id ++ "/conversation.json" := by
  have h := string_append2_ne (context_path base id) "/conversation_"
    "/conversation.json" (ts ++ ".json") "" (by decide) (by decide)
  rw [String.append_assoc _ ts ".json"]
  simpa using h

/-- The compact path differs from the conversation path. -/
theorem compact_ne_conv (base id ts : String) :
    context_path base id ++ "/compact_" ++ ts ++ ".json" ≠
      context_path base id ++ "/conversation.json" := by
  have h := string_append2_ne (context_path base id) "/compact_"
    "/conversation.json" (ts ++ ".json") "" (by decide) (by decide)
  rw [String.append_assoc _ ts ".json"]
  simpa using h

/-- The archive path differs from the compact path. -/
theorem archive_ne_compact (base id ts ts' : String) :
    context_path base id ++ "/conversation_" ++ ts ++ ".json" ≠
      context_path base id ++ "/compact_" ++ ts' ++ ".json" := by
  have h := string_append2_ne (context_path base id) "/conversation_"
    "/compact_" (ts ++ ".json") (ts' ++ ".json") (by decide) (by decide)
  rw [String.append_assoc _ ts ".json", String.append_assoc _ ts' ".json"]
  exact h

/-- Serialize–deserialize round trip for conversations with non-empty
metadata. -/
theorem conversation_roundtrip (s : conversation_state)
    (h : s.metadata.isEmptyJ = false) :
    conversation_state.from_json s.to_json = some s := by
  simp [conversation_state.from_json, conversation_state.to_json, h,
        J.valueStr?, J.valueJ?, J.lookupKV]

end context

namespace context

/-- C9 (counterexample): a file that exists but fails to parse yields
exactly the same result as a missing file — `read_json` returns
`std::nullopt` in both cases, so a parse error is *not* distinguishable
from absence. -/
theorem C9_counterexample :
    read_json { files := [("/d/contexts/x/conversation.json", .malformed)],
                raw_paths := [], log := [] } "/d/contexts/x/conversation.json" =
      read_json { files := [], raw_paths := [], log := [] }
        "/d/contexts/x/conversation.json" ∧
    read_json { files := [("/d/contexts/x/conversation.json", .malformed)],
                raw_paths := [], log := [] } "/d/contexts/x/conversation.json" =
      none :=
  ⟨rfl, rfl⟩

/-- C9 (amended): a context-store read of a missing file yields an
absent result, and a read of a file that exists but fails to parse
yields the *same* absent result (the parse error is swallowed by
`read_json`'s catch-all and is not distinguishable from absence);
`load_context` likewise reports both as absence. -/
theorem C9_read_json (fs : fs_state) (p base id : String) :
    (assoc_lookup fs.files p = none → read_json fs p = none) ∧
    (assoc_lookup fs.files p = some .malformed → read_json fs p = none) ∧
    ((assoc_lookup fs.files (context_path base id ++ "/conversation.json") = none ∨
      assoc_lookup fs.files (context_path base id ++ "/conversation.json") =
        some .malformed) →
      load_context fs base id = none) := by
  refine ⟨fun h => ?_, fun h => ?_, fun h => ?_⟩
  · simp [read_json, h]
  · simp [read_json, h]
  · rcases h with h | h <;> simp [load_context, read_json, h]

/-- Witness for `C9_read_json`: a one-file store where the conversation
file is corrupt. -/
theorem C9_read_json_witness :
    read_json { files := [("/d/contexts/c1/conversation.json", .malformed)],
                raw_paths := [], log := [] } "/d/contexts/c1/conversation.json" =
      none ∧
    load_context { files := [("/d/contexts/c1/conversation.json", .malformed)],
                   raw_paths := [], log := [] } "/d" "c1" = none :=
  ⟨(C9_read_json { files := [("/d/contexts/c1/conversation.json", .malformed)],
                   raw_paths := [], log := [] }
      "/d/contexts/c1/conversation.json" "/d" "c1").2.1 rfl,
   (C9_read_json { files := [("/d/contexts/c1/conversation.json", .malformed)],
                   raw_paths := [], log := [] }
      "/d/contexts/c1/conversation.json" "/d" "c1").2.2 (Or.inr rfl)⟩

end context

namespace context

/-- Lookup and non-emptiness facts about the metadata produced by
`compact_context`. -/
theorem compact_meta_facts (m1 : List (String × J)) (narr v : J) (pb : Bool) :
    J.lookupKV (if pb then J.setKV (J.setKV m1 "archives" narr) "plan_ref" v
                else J.setKV m1 "archives" narr) "archives" = some narr ∧
    (if pb then J.setKV (J.setKV m1 "archives" narr) "plan_ref" v
     else J.setKV m1 "archives" narr) ≠ [] := by
  cases pb
  · simp [J.lookupKV_setKV_self, J.setKV_ne_nil]
  · constructor
    · rw [if_pos rfl,
        J.lookupKV_setKV_other _ _ _ _ (by decide : "archives" ≠ "plan_ref"),
        J.lookupKV_setKV_self]
    · simp [J.setKV_ne_nil]

/-- Explicit success-path equation for `compact_context`, valid for both
the archives-present and archives-absent cases (`m1` is the metadata
binding list after ensuring the `"archives"` key). -/
theorem compact_context_success
    (fs : fs_state) (base id ts now : String) (entry : compact_entry)
    (state : conversation_state) (kvs m1 : List (String × J)) (olds : List J)
    (hload : load_context fs base id = some state)
    (hmeta : state.metadata = J.jobj kvs)
    (hm1 : (if (J.lookupKV kvs "archives").isSome then kvs
            else J.setKV kvs "archives" (J.jarr [])) = m1)
    (hlook : (J.lookupKV m1 "archives").getD J.null = J.jarr olds) :
    compact_context fs base id entry ts now =
      some (true, save_context (write_json (write_json fs
        (context_path base id ++ "/conversation_" ++ ts ++ ".json")
        state.messages)
        (context_path base id ++ "/compact_" ++ ts ++ ".json")
        (compact_entry.to_json { entry with timestamp := ts })) base
        { state with
          messages := J.jarr [J.jobj [("role", J.jstr "system"),
            ("content", J.jstr (render_compact { entry with timestamp := ts }
              ((entry.plan_ref != "") ||
               fs.raw_paths.contains (context_path base id ++ "/plan.md"))))]],
          metadata := J.jobj (if ((entry.plan_ref != "") ||
               fs.raw_paths.contains (context_path base id ++ "/plan.md")) then
              J.setKV (J.setKV m1 "archives"
                (J.jarr (olds ++ [archive_record ts state.messages.size])))
                "plan_ref" (J.jstr "plan.md")
            else J.setKV m1 "archives"
              (J.jarr (olds ++ [archive_record ts state.messages.size]))),
          updated_at := now }) := by
  simp [compact_context, hload, hmeta, hm1, hlook]

/-- Postconditions of the compacted file system: archived messages,
written compact entry, and the reloaded conversation. -/
theorem compact_post
    (fs : fs_state) (base id ts now : String) (entry : compact_entry)
    (state : conversation_state) (m1 : List (String × J)) (olds : List J)
    (hid : state.id = id) :
    read_json (save_context (write_json (write_json fs
        (context_path base id ++ "/conversation_" ++ ts ++ ".json")
        state.messages)
        (context_path base id ++ "/compact_" ++ ts ++ ".json")
        (compact_entry.to_json { entry with timestamp := ts })) base
        { state with
          messages := J.jarr [J.jobj [("role", J.jstr "system"),
            ("content", J.jstr (render_compact { entry with timestamp := ts }
              ((entry.plan_ref != "") ||
               fs.raw_paths.contains (context_path base id ++ "/plan.md"))))]],
          metadata := J.jobj (if ((entry.plan_ref != "") ||
               fs.raw_paths.contains (context_path base id ++ "/plan.md")) then
              J.setKV (J.setKV m1 "archives"
                (J.jarr (olds ++ [archive_record ts state.messages.size])))
                "plan_ref" (J.jstr "plan.md")
            else J.setKV m1 "archives"
              (J.jarr (olds ++ [archive_record ts state.messages.size]))),
          updated_at := now })
      (context_path base id ++ "/conversation_" ++ ts ++ ".json") =
        some state.messages ∧
    read_json (save_context (write_json (write_json fs
        (context_path base id ++ "/conversation_" ++ ts ++ ".json")
        state.messages)
        (context_path base id ++ "/compact_" ++ ts ++ ".json")
        (compact_entry.to_json { entry with timestamp := ts })) base
        { state with
          messages := J.jarr [J.jobj [("role", J.jstr "system"),
            ("content", J.jstr (render_compact { entry with timestamp := ts }
              ((entry.plan_ref != "") ||
               fs.raw_paths.contains (context_path base id ++ "/plan.md"))))]],
          metadata := J.jobj (if ((entry.plan_ref != "") ||
               fs.raw_paths.contains (context_path base id ++ "/plan.md")) then
              J.setKV (J.setKV m1 "archives"
                (J.jarr (olds ++ [archive_record ts state.messages.size])))
                "plan_ref" (J.jstr "plan.md")
            else J.setKV m1 "archives"
              (J.jarr (olds ++ [archive_record ts state.messages.size]))),
          updated_at := now })
      (context_path base id ++ "/compact_" ++ ts ++ ".json") =
        some (compact_entry.to_json { entry with timestamp := ts }) ∧
    ∃ state', load_context (save_context (write_json (write_json fs
        (context_path base id ++ "/conversation_" ++ ts ++ ".json")
        state.messages)
        (context_path base id ++ "/compact_" ++ ts ++ ".json")
        (compact_entry.to_json { entry with timestamp := ts })) base
        { state with
          messages := J.jarr [J.jobj [("role", J.jstr "system"),
            ("content", J.jstr (render_compact { entry with timestamp := ts }
              ((entry.plan_ref != "") ||
               fs.raw_paths.contains (context_path base id ++ "/plan.md"))))]],
          metadata := J.jobj (if ((entry.plan_ref != "") ||
               fs.raw_paths.contains (context_path base id ++ "/plan.md")) then
              J.setKV (J.setKV m1 "archives"
                (J.jarr (olds ++ [archive_record ts state.messages.size])))
                "plan_ref" (J.jstr "plan.md")
            else J.setKV m1 "archives"
              (J.jarr (olds ++ [archive_record ts state.messages.size]))),
          updated_at := now }) base id = some state' ∧
      state'.updated_at = now ∧
      (∃ kvs', state'.metadata = J.jobj kvs' ∧
        J.lookupKV kvs' "archives" =
          some (J.jarr (olds ++ [archive_record ts state.messages.size]))) ∧
      state'.messages = J.jarr [J.jobj [("role", J.jstr "system"),
        ("content", J.jstr (render_compact { entry with timestamp := ts }
          ((entry.plan_ref != "") ||
           fs.raw_paths.contains (context_path base id ++ "/plan.md"))))]] := by
  have hne1 := archive_ne_conv base id ts
  have hne2 := archive_ne_compact base id ts ts
  have hne3 := compact_ne_conv base id ts
  have hmeta := compact_meta_facts m1
    (J.jarr (olds ++ [archive_record ts state.messages.size]))
    (J.jstr "plan.md")
    ((entry.plan_ref != "") ||
     fs.raw_paths.contains (context_path base id ++ "/plan.md"))
  refine ⟨?_, ?_, ?_⟩
  · simp only [save_context, write_json, read_json, hid]
    rw [assoc_lookup_set_other _ _ _ _ hne1,
        assoc_lookup_set_other _ _ _ _ hne2,
        assoc_lookup_set_self]
  · simp only [save_context, write_json, read_json, hid]
    rw [assoc_lookup_set_other _ _ _ _ hne3, assoc_lookup_set_self]
  · refine ⟨{ state with
      messages := J.jarr [J.jobj [("role", J.jstr "system"),
        ("content", J.jstr (render_compact { entry with timestamp := ts }
          ((entry.plan_ref != "") ||
           fs.raw_paths.contains (context_path base id ++ "/plan.md"))))]],
      metadata := J.jobj (if ((entry.plan_ref != "") ||
           fs.raw_paths.contains (context_path base id ++ "/plan.md")) then
          J.setKV (J.setKV m1 "archives"
            (J.jarr (olds ++ [archive_record ts state.messages.size])))
            "plan_ref" (J.jstr "plan.md")
        else J.setKV m1 "archives"
          (J.jarr (olds ++ [archive_record ts state.messages.size]))),
      updated_at := now }, ?_, rfl, ⟨_, rfl, hmeta.1⟩, rfl⟩
    simp only [load_context, save_context, write_json, read_json, hid]
    rw [assoc_lookup_set_self]
    apply conversation_roundtrip
    simpa [J.isEmptyJ] using hmeta.2

/-- C3: for every context whose conversation loads successfully (with a
well-formed metadata object), `compact_context` moves the current
messages to the timestamped archive `conversation_<ts>.json`, writes the
compact entry to `compact_<ts>.json`, appends a `{timestamp,
message_count, compact_ref}` record to `metadata.archives`, and replaces
the messages with exactly one synthetic system message whose body
renders the compact entry (summary, current state, pending tasks, files
modified, plan reference). -/
theorem C3_compact_context
    (fs : fs_state) (base id ts now : String) (entry : compact_entry)
    (state : conversation_state) (kvs : List (String × J)) (olds : List J)
    (hload : load_context fs base id = some state)
    (hid : state.id = id)
    (hmeta : state.metadata = J.jobj kvs)
    (harch : J.lookupKV kvs "archives" = some (J.jarr olds) ∨
             (J.lookupKV kvs "archives" = none ∧ olds = [])) :
    ∃ fs', compact_context fs base id entry ts now = some (true, fs') ∧
      read_json fs' (context_path base id ++ "/conversation_" ++ ts ++ ".json") =
        some state.messages ∧
      read_json fs' (context_path base id ++ "/compact_" ++ ts ++ ".json") =
        some (compact_entry.to_json { entry with timestamp := ts }) ∧
      ∃ state', load_context fs' base id = some state' ∧
        state'.updated_at = now ∧
        (∃ kvs', state'.metadata = J.jobj kvs' ∧
          J.lookupKV kvs' "archives" =
            some (J.jarr (olds ++ [archive_record ts state.messages.size]))) ∧
        state'.messages = J.jarr [J.jobj [("role", J.jstr "system"),
          ("content", J.jstr (render_compact { entry with timestamp := ts }
            ((entry.plan_ref != "") ||
             fs.raw_paths.contains (context_path base id ++ "/plan.md"))))]] := by
  rcases harch with harch | ⟨harch, holds⟩
  · have hm1 : (if (J.lookupKV kvs "archives").isSome then kvs
        else J.setKV kvs "archives" (J.jarr [])) = kvs := by simp [harch]
    have hlook : (J.lookupKV kvs "archives").getD J.null = J.jarr olds := by
      simp [harch]
    have hstep := compact_context_success fs base id ts now entry state kvs kvs
      olds hload hmeta hm1 hlook
    have hpost := compact_post fs base id ts now entry state kvs olds hid
    exact ⟨_, hstep, hpost.1, hpost.2.1, hpost.2.2⟩
  · subst holds
    have hm1 : (if (J.lookupKV kvs "archives").isSome then kvs
        else J.setKV kvs "archives" (J.jarr [])) =
        J.setKV kvs "archives" (J.jarr []) := by simp [harch]
    have hlook : (J.lookupKV (J.setKV kvs "archives" (J.jarr []))
        "archives").getD J.null = J.jarr [] := by
      rw [J.lookupKV_setKV_self]
      rfl
    have hstep := compact_context_success fs base id ts now entry state kvs
      (J.setKV kvs "archives" (J.jarr [])) [] hload hmeta hm1 hlook
    have hpost := compact_post fs base id ts now entry state
      (J.setKV kvs "archives" (J.jarr [])) [] hid
    exact ⟨_, hstep, hpost.1, hpost.2.1, hpost.2.2⟩

end context

namespace context

/-- Witness for `C3_compact_context`: compacting the concrete sample
store. -/
theorem C3_compact_context_witness :
    ∃ fs', compact_context sample_fs "/d" "c1" sample_entry "ts1" "t1" =
        some (true, fs') ∧
      read_json fs' (context_path "/d" "c1" ++ "/conversation_" ++ "ts1" ++
          ".json") = some sample_state.messages ∧
      read_json fs' (context_path "/d" "c1" ++ "/compact_" ++ "ts1" ++
          ".json") =
        some (compact_entry.to_json { sample_entry with timestamp := "ts1" }) ∧
      ∃ state', load_context fs' "/d" "c1" = some state' ∧
        state'.updated_at = "t1" ∧
        (∃ kvs', state'.metadata = J.jobj kvs' ∧
          J.lookupKV kvs' "archives" =
            some (J.jarr ([] ++
              [archive_record "ts1" sample_state.messages.size]))) ∧
        state'.messages = J.jarr [J.jobj [("role", J.jstr "system"),
          ("content", J.jstr (render_compact
            { sample_entry with timestamp := "ts1" }
            ((sample_entry.plan_ref != "") ||
             sample_fs.raw_paths.contains
               (context_path "/d" "c1" ++ "/plan.md"))))]] :=
  C3_compact_context sample_fs "/d" "c1" "ts1" "t1" sample_entry sample_state
    [("archives", J.jarr [])] [] (by rfl) rfl rfl (Or.inl rfl)

end context

namespace agent_registry

/-- A successful lookup is a membership. -/
theorem assoc_lookup_mem {α : Type} {m : List (String × α)} {k : String}
    {v : α} (h : assoc_lookup m k = some v) : (k, v) ∈ m := by
  induction m with
  | nil => simp [assoc_lookup] at h
  | cons kv rest ih =>
    obtain ⟨k', w⟩ := kv
    by_cases hk : k' = k
    · subst hk
      simp [assoc_lookup] at h
      simp [h]
    · simp [assoc_lookup, hk] at h
      simp [ih h]

/-- With unique keys, membership determines the lookup. -/
theorem assoc_lookup_of_mem_nodup {α : Type} {m : List (String × α)}
    {k : String} {v : α} (hnd : (m.map Prod.fst).Nodup) (hm : (k, v) ∈ m) :
    assoc_lookup m k = some v := by
  induction m with
  | nil => simp at hm
  | cons kv rest ih =>
    obtain ⟨k', w⟩ := kv
    simp only [List.map_cons, List.nodup_cons] at hnd
    rcases List.mem_cons.mp hm with h | h
    · obtain ⟨hk, hv⟩ := Prod.mk.injEq .. ▸ h
      cases h
      simp [assoc_lookup]
    · have hk : k' ≠ k := by
        intro he
        subst he
        exact hnd.1 (List.mem_map.mpr ⟨(k', v), h, rfl⟩)
      simp [assoc_lookup, hk, ih hnd.2 h]

/-- An absent key is exactly a key not among the map's keys. -/
theorem assoc_lookup_eq_none_iff {α : Type} (m : List (String × α))
    (k : String) : assoc_lookup m k = none ↔ k ∉ m.map Prod.fst := by
  induction m with
  | nil => simp [assoc_lookup]
  | cons kv rest ih =>
    obtain ⟨k', w⟩ := kv
    by_cases hk : k' = k
    · subst hk
      simp [assoc_lookup]
    · simp [assoc_lookup, hk, ih, Ne.symm hk]

/-- The keys after `assoc_set`. -/
theorem assoc_set_keys {α : Type} (m : List (String × α)) (k : String)
    (v : α) :
    (assoc_set m k v).map Prod.fst =
      if k ∈ m.map Prod.fst then m.map Prod.fst else m.map Prod.fst ++ [k] := by
  induction m with
  | nil => simp [assoc_set]
  | cons kv rest ih =>
    obtain ⟨k', w⟩ := kv
    by_cases hk : k' = k
    · subst hk
      simp [assoc_set]
    · simp only [assoc_set, if_neg hk, List.map_cons, ih]
      by_cases hmem : k ∈ rest.map Prod.fst
      · simp [hmem, Ne.symm hk]
      · simp [hmem, Ne.symm hk]

/-- `assoc_set` preserves key uniqueness. -/
theorem assoc_set_keys_nodup {α : Type} {m : List (String × α)}
    (hnd : (m.map Prod.fst).Nodup) (k : String) (v : α) :
    ((assoc_set m k v).map Prod.fst).Nodup := by
  rw [assoc_set_keys]
  by_cases hmem : k ∈ m.map Prod.fst
  · simpa [hmem] using hnd
  · simp only [hmem, if_false]
    exact List.Nodup.append hnd (List.nodup_singleton k)
      (fun a ha hb => hmem (List.mem_singleton.mp hb ▸ ha))

/-- Members of `assoc_set` are the new binding or old members. -/
theorem mem_assoc_set {α : Type} {m : List (String × α)} {k : String}
    {v : α} {kv : String × α} (h : kv ∈ assoc_set m k v) :
    kv = (k, v) ∨ kv ∈ m := by
  induction m with
  | nil => simpa [assoc_set] using h
  | cons kv' rest ih =>
    obtain ⟨k', w⟩ := kv'
    by_cases hk : k' = k
    · subst hk
      rcases List.mem_cons.mp (by simpa [assoc_set] using h) with h | h
      · left; simpa using h
      · right; exact List.mem_cons_of_mem _ h
    · rcases List.mem_cons.mp (by simpa [assoc_set, hk] using h) with h | h
      · right; simp [h]
      · rcases ih h with h | h
        · exact Or.inl h
        · exact Or.inr (List.mem_cons_of_mem _ h)

/-- `good_map` is preserved by `assoc_set` with a coherent binding. -/
theorem good_map_set {m : List (String × agent_definition)} {k : String}
    {v : agent_definition} (hg : good_map m) (hname : v.name = k) :
    good_map (assoc_set m k v) := by
  refine ⟨assoc_set_keys_nodup hg.1 k v, fun kv hkv => ?_⟩
  rcases mem_assoc_set hkv with h | h
  · subst h; exact hname
  · exact hg.2 kv h

/-- `good_map` is preserved by a `discover_step`. -/
theorem good_map_discover_step (embedded : List (String × agent_definition))
    {m : List (String × agent_definition)} (hg : good_map m)
    (a : agent_definition) : good_map (discover_step embedded m a) := by
  unfold discover_step
  split_ifs with h
  · exact hg
  · exact good_map_set hg rfl

/-- `good_map` is preserved by folding `discover_step` over a path's
entries. -/
theorem good_map_fold_entries (embedded : List (String × agent_definition))
    (entries : List agent_definition) {m : List (String × agent_definition)}
    (hg : good_map m) :
    good_map (entries.foldl (discover_step embedded) m) := by
  induction entries generalizing m with
  | nil => exact hg
  | cons a rest ih => exact ih (good_map_discover_step embedded hg a)

/-- `good_map` is preserved by folding over all search paths. -/
theorem good_map_fold_paths (embedded : List (String × agent_definition))
    (paths : List (List agent_definition))
    {m : List (String × agent_definition)} (hg : good_map m) :
    good_map (paths.foldl
      (fun m entries => entries.foldl (discover_step embedded) m) m) := by
  induction paths generalizing m with
  | nil => exact hg
  | cons entries rest ih => exact ih (good_map_fold_entries embedded entries hg)

/-- `good_map` is preserved by overlaying the embedded map. -/
theorem good_map_fold_embed {embedded : List (String × agent_definition)}
    (hemb : ∀ kv ∈ embedded, (Prod.snd kv).name = kv.1)
    {m : List (String × agent_definition)} (hg : good_map m) :
    good_map (embedded.foldl (fun m kv => assoc_set m kv.1 kv.2) m) := by
  induction embedded generalizing m with
  | nil => exact hg
  | cons kv rest ih =>
    exact ih (fun kv' h => hemb kv' (List.mem_cons_of_mem _ h))
      (good_map_set hg (hemb kv (List.mem_cons_self _ _)))

end agent_registry

namespace agent_registry

/-- If every entry of `l` named `n` equals `p` and the map already binds
`n` to `p`, folding `l` keeps the binding. -/
theorem fold_entries_keep (embedded : List (String × agent_definition))
    (l : List agent_definition) (n : String) (p : agent_definition)
    (hemb : assoc_lookup embedded n = none)
    (huniq : ∀ q ∈ l, q.name = n → q = p) :
    ∀ m : List (String × agent_definition), assoc_lookup m n = some p →
      assoc_lookup (l.foldl (discover_step embedded) m) n = some p := by
  induction l with
  | nil => exact fun m hm => hm
  | cons a rest ih =>
    intro m hm
    have huniq' : ∀ q ∈ rest, q.name = n → q = p :=
      fun q hq => huniq q (List.mem_cons_of_mem _ hq)
    by_cases ha : a.name = n
    · have hap : a = p := huniq a (List.mem_cons_self _ _) ha
      simp only [List.foldl_cons, discover_step, ha, hemb, Option.isSome_none,
        Bool.false_eq_true, if_false]
      exact ih huniq' _ (by rw [assoc_lookup_set_self, hap])
    · simp only [List.foldl_cons, discover_step]
      split_ifs with hskip
      · exact ih huniq' m hm
      · exact ih huniq' _
          (by rw [assoc_lookup_set_other _ _ _ _ (Ne.symm ha)]; exact hm)

/-- Folding a path's entries installs the (unique) entry named `n`. -/
theorem fold_entries_install (embedded : List (String × agent_definition))
    (l : List agent_definition) (n : String) (p : agent_definition)
    (hemb : assoc_lookup embedded n = none)
    (hmem : p ∈ l) (hname : p.name = n)
    (huniq : ∀ q ∈ l, q.name = n → q = p) :
    ∀ m : List (String × agent_definition),
      assoc_lookup (l.foldl (discover_step embedded) m) n = some p := by
  induction l with
  | nil => simp at hmem
  | cons a rest ih =>
    intro m
    have huniq' : ∀ q ∈ rest, q.name = n → q = p :=
      fun q hq => huniq q (List.mem_cons_of_mem _ hq)
    by_cases ha : a.name = n
    · have hap : a = p := huniq a (List.mem_cons_self _ _) ha
      simp only [List.foldl_cons, discover_step, ha, hemb, Option.isSome_none,
        Bool.false_eq_true, if_false]
      exact fold_entries_keep embedded rest n p hemb huniq' _
        (by rw [assoc_lookup_set_self, hap])
    · have hprest : p ∈ rest := by
        rcases List.mem_cons.mp hmem with h | h
        · exact absurd (h ▸ hname) ha
        · exact h
      simp only [List.foldl_cons]
      exact ih hprest huniq' _

/-- Folding entries none of which is named `n` leaves the lookup of `n`
unchanged. -/
theorem fold_entries_no_n (embedded : List (String × agent_definition))
    (l : List agent_definition) (n : String)
    (hnone : ∀ q ∈ l, q.name ≠ n) :
    ∀ m : List (String × agent_definition),
      assoc_lookup (l.foldl (discover_step embedded) m) n =
        assoc_lookup m n := by
  induction l with
  | nil => exact fun m => rfl
  | cons a rest ih =>
    intro m
    have hnone' : ∀ q ∈ rest, q.name ≠ n :=
      fun q hq => hnone q (List.mem_cons_of_mem _ hq)
    simp only [List.foldl_cons, discover_step]
    split_ifs with hskip
    · exact ih hnone' m
    · rw [ih hnone' _,
        assoc_lookup_set_other _ _ _ _
          (Ne.symm (hnone a (List.mem_cons_self _ _)))]

/-- Folding key/value pairs whose keys avoid `k` preserves the lookup
of `k`. -/
theorem fold_pairs_no_k (l : List (String × agent_definition)) (k : String)
    (hl : ∀ q ∈ l, q.1 ≠ k) :
    ∀ m : List (String × agent_definition),
      assoc_lookup (l.foldl (fun m kv => assoc_set m kv.1 kv.2) m) k =
        assoc_lookup m k := by
  induction l with
  | nil => exact fun m => rfl
  | cons kv rest ih =>
    intro m
    simp only [List.foldl_cons]
    rw [ih (fun q hq => hl q (List.mem_cons_of_mem _ hq)) _,
        assoc_lookup_set_other _ _ _ _
          (Ne.symm (hl kv (List.mem_cons_self _ _)))]

/-- Overlaying the embedded map installs each embedded binding
(embedded keys are unique). -/
theorem fold_embed_lookup {embedded : List (String × agent_definition)}
    (hkeys : (embedded.map Prod.fst).Nodup) (n : String)
    (d : agent_definition) (h : assoc_lookup embedded n = some d) :
    ∀ m : List (String × agent_definition),
      assoc_lookup (embedded.foldl (fun m kv => assoc_set m kv.1 kv.2) m) n =
        some d := by
  induction embedded with
  | nil => simp [assoc_lookup] at h
  | cons kv rest ih =>
    intro m
    obtain ⟨k, v⟩ := kv
    simp only [List.map_cons, List.nodup_cons] at hkeys
    by_cases hk : k = n
    · subst hk
      have hvd : v = d := by simpa [assoc_lookup] using h
      subst hvd
      have hrest : ∀ q ∈ rest, q.1 ≠ k := by
        intro q hq he
        exact hkeys.1 (List.mem_map.mpr ⟨q, hq, he⟩)
      simp only [List.foldl_cons]
      rw [fold_pairs_no_k rest k hrest _, assoc_lookup_set_self]
    · simp only [assoc_lookup, if_neg hk] at h
      simp only [List.foldl_cons]
      exact ih hkeys.2 h _

end agent_registry

namespace agent_registry

/-- Insertion keeps the list a permutation. -/
theorem insert_by_name_perm (a : agent_definition)
    (l : List agent_definition) : List.Perm (insert_by_name a l) (a :: l) := by
  induction l with
  | nil => exact List.Perm.refl _
  | cons b rest ih =>
    by_cases h : a.name ≤ b.name
    · simp [insert_by_name, h]
    · simp only [insert_by_name, if_neg h]
      exact (ih.cons b).trans (List.Perm.swap a b rest)

/-- Sorting by name is a permutation. -/
theorem sort_by_name_perm (l : List agent_definition) :
    List.Perm (sort_by_name l) l := by
  induction l with
  | nil => exact List.Perm.refl _
  | cons a rest ih =>
    exact (insert_by_name_perm a (sort_by_name rest)).trans (ih.cons a)

/-- `find?` of the unique element satisfying the predicate. -/
theorem find_unique {α : Type} (l : List α) (pred : α → Bool) (d : α)
    (hmem : d ∈ l) (hd : pred d = true)
    (huniq : ∀ x ∈ l, pred x = true → x = d) :
    l.find? pred = some d := by
  induction l with
  | nil => simp at hmem
  | cons a rest ih =>
    by_cases hp : pred a = true
    · have had : a = d := huniq a (List.mem_cons_self _ _) hp
      rw [List.find?_cons_of_pos _ hp, had]
    · have hd_rest : d ∈ rest := by
        rcases List.mem_cons.mp hmem with h | h
        · exact absurd hd (h ▸ hp)
        · exact h
      rw [List.find?_cons_of_neg _ (by simpa using hp)]
      exact ih hd_rest (fun x hx hpx => huniq x (List.mem_cons_of_mem _ hx) hpx)

/-- The final registry resolves `get_agent` from the keyed map. -/
theorem get_agent_discover (embedded : List (String × agent_definition))
    (paths : List (List agent_definition)) (n : String)
    (d : agent_definition)
    (hemb : ∀ kv ∈ embedded, (Prod.snd kv).name = kv.1)
    (hlook : assoc_lookup (discover_map embedded paths) n = some d) :
    get_agent (discover embedded paths) n = some d := by
  have hg : good_map (discover_map embedded paths) :=
    good_map_fold_embed hemb
      (good_map_fold_paths embedded paths.reverse
        ⟨List.nodup_nil, fun kv h => absurd h (List.not_mem_nil kv)⟩)
  have hmemkv : (n, d) ∈ discover_map embedded paths := assoc_lookup_mem hlook
  have hdname : d.name = n := hg.2 (n, d) hmemkv
  have hmem : d ∈ (discover_map embedded paths).map Prod.snd :=
    List.mem_map.mpr ⟨(n, d), hmemkv, rfl⟩
  have hmem' : d ∈ sort_by_name ((discover_map embedded paths).map Prod.snd) :=
    (sort_by_name_perm _).mem_iff.mpr hmem
  apply find_unique _ _ _ hmem' (by simp [hdname])
  intro x hx hpx
  have hx' : x ∈ (discover_map embedded paths).map Prod.snd :=
    (sort_by_name_perm _).mem_iff.mp hx
  obtain ⟨kv, hkv, hsnd⟩ := List.mem_map.mp hx'
  have hxname : x.name = n := by simpa using hpx
  have hk1 : kv.1 = n := by
    have := hg.2 kv hkv
    rw [hsnd] at this
    rw [← this, hxname]
  have hlk : assoc_lookup (discover_map embedded paths) kv.1 = some kv.2 := by
    apply assoc_lookup_of_mem_nodup hg.1
    cases kv
    exact hkv
  rw [hk1, hlook] at hlk
  rw [← hsnd]
  exact Option.some.injEq .. ▸ hlk.symm ▸ rfl

end agent_registry

namespace agent_registry

/-- C7: a discovered on-disk agent whose name equals an embedded agent's
name is silently skipped — `get_agent` resolves to the embedded
definition no matter what is on disk — and, for names not owned by an
embedded agent, a project-local definition overrides a user-global one
of the same name. -/
theorem C7_discover_precedence
    (embedded : List (String × agent_definition))
    (hemb : ∀ kv ∈ embedded, (Prod.snd kv).name = kv.1)
    (hkeys : (embedded.map Prod.fst).Nodup) (n : String) :
    (∀ (paths : List (List agent_definition)) (d : agent_definition),
      assoc_lookup embedded n = some d →
      get_agent (discover embedded paths) n = some d) ∧
    (∀ (proj glob : List agent_definition) (p : agent_definition),
      assoc_lookup embedded n = none →
      p ∈ proj → p.name = n → (∀ q ∈ proj, q.name = n → q = p) →
      get_agent (discover embedded [proj, glob]) n = some p) := by
  constructor
  · intro paths d h
    exact get_agent_discover embedded paths n d hemb
      (fold_embed_lookup hkeys n d h _)
  · intro proj glob p hnone hp hpn huniq
    have hkeysn : ∀ kv ∈ embedded, kv.1 ≠ n := by
      intro kv hkv he
      exact (assoc_lookup_eq_none_iff embedded n).mp hnone
        (List.mem_map.mpr ⟨kv, hkv, he⟩)
    have hdisk := fold_entries_install embedded proj n p hnone hp hpn huniq
      (glob.foldl (discover_step embedded) [])
    apply get_agent_discover embedded [proj, glob] n p hemb
    show assoc_lookup (embedded.foldl (fun m kv => assoc_set m kv.1 kv.2) _) n =
      some p
    rw [fold_pairs_no_k embedded n hkeysn _]
    exact hdisk

/-- Witness for `C7_discover_precedence`: a disk clone of
`planning-agent` is skipped, and the project-local `custom` wins over
the user-global `custom`. -/
theorem C7_discover_precedence_witness :
    get_agent (discover sample_embedded [[disk_planning_clone], []])
      "planning-agent" = some embedded_planning ∧
    get_agent (discover sample_embedded [[proj_custom], [glob_custom]])
      "custom" = some proj_custom :=
  ⟨(C7_discover_precedence sample_embedded (by decide) (by decide)
      "planning-agent").1 [[disk_planning_clone], []] embedded_planning rfl,
   (C7_discover_precedence sample_embedded (by decide) (by decide)
      "custom").2 [proj_custom] [glob_custom] proj_custom rfl
      (List.mem_singleton.mpr rfl) rfl (by decide)⟩

end agent_registry

namespace subagent

/-- C2: a spawn request whose `spawn_depth` is at least 3 fails
immediately: the result is the default-constructed failure with a
"Maximum spawn depth" error, no child agent loop is constructed, and the
spawn-depth stack (indeed the whole manager state) is unchanged. -/
theorem C2_spawn_depth (env : spawn_env) (working_dir : String)
    (req : subagent_request) (st : spawn_state)
    (h : req.spawn_depth ≥ MAX_SPAWN_DEPTH) :
    spawn env working_dir req st =
      ({ subagent_result.default with
          error := "Maximum spawn depth (" ++ toString MAX_SPAWN_DEPTH ++
            ") exceeded. Cannot spawn more subagents." }, st) ∧
    (spawn env working_dir req st).1.success = false ∧
    (spawn env working_dir req st).1.error =
      "Maximum spawn depth (3) exceeded. Cannot spawn more subagents." ∧
    "Maximum spawn depth".toList.isPrefixOf
      (spawn env working_dir req st).1.error.toList = true ∧
    (spawn env working_dir req st).2 = st := by
  have h1 : spawn env working_dir req st =
      ({ subagent_result.default with
          error := "Maximum spawn depth (" ++ toString MAX_SPAWN_DEPTH ++
            ") exceeded. Cannot spawn more subagents." }, st) := by
    unfold spawn
    rw [if_pos h]
  have h2 : (spawn env working_dir req st).1.error =
      "Maximum spawn depth (3) exceeded. Cannot spawn more subagents." := by
    rw [h1]
    exact (by decide :
      "Maximum spawn depth (" ++ toString MAX_SPAWN_DEPTH ++
        ") exceeded. Cannot spawn more subagents." =
      "Maximum spawn depth (3) exceeded. Cannot spawn more subagents.")
  refine ⟨h1, by rw [h1]; rfl, h2, by rw [h2]; decide, by rw [h1]⟩

/-- Witness for `C2_spawn_depth`: a concrete depth-3 request. -/
theorem C2_spawn_depth_witness :
    spawn sample_env "/w" sample_deep_request sample_spawn_state =
      ({ subagent_result.default with
          error := "Maximum spawn depth (" ++ toString MAX_SPAWN_DEPTH ++
            ") exceeded. Cannot spawn more subagents." },
       sample_spawn_state) ∧
    (spawn sample_env "/w" sample_deep_request sample_spawn_state).2 =
      sample_spawn_state :=
  ⟨(C2_spawn_depth sample_env "/w" sample_deep_request sample_spawn_state
      (by decide)).1,
   (C2_spawn_depth sample_env "/w" sample_deep_request sample_spawn_state
      (by decide)).2.2.2.2⟩

end subagent

namespace subagent

/-- The nested-files loop pushes exactly the all-string prefix and
reports whether it ran to completion. -/
theorem push_files_until_throw_eq (l : List J) (files : List String) :
    push_files_until_throw l files =
      (List.foldl dedup_push files (strings_pref l), l.all J.isStr) := by
  induction l generalizing files with
  | nil => simp [push_files_until_throw, strings_pref]
  | cons j rest ih =>
    cases j with
    | jstr s => simp [push_files_until_throw, strings_pref, ih, J.isStr]
    | null => simp [push_files_until_throw, strings_pref, J.isStr]
    | jbool b => simp [push_files_until_throw, strings_pref, J.isStr]
    | jnum n => simp [push_files_until_throw, strings_pref, J.isStr]
    | jarr xs => simp [push_files_until_throw, strings_pref, J.isStr]
    | jobj kvs => simp [push_files_until_throw, strings_pref, J.isStr]

/-- The nested-commands loop appends exactly the all-string prefix. -/
theorem push_cmds_until_throw_eq (l : List J) (cmds : List String) :
    push_cmds_until_throw l cmds =
      (cmds ++ strings_pref l, l.all J.isStr) := by
  induction l generalizing cmds with
  | nil => simp [push_cmds_until_throw, strings_pref]
  | cons j rest ih =>
    cases j with
    | jstr s => simp [push_cmds_until_throw, strings_pref, ih, J.isStr]
    | null => simp [push_cmds_until_throw, strings_pref, J.isStr]
    | jbool b => simp [push_cmds_until_throw, strings_pref, J.isStr]
    | jnum n => simp [push_cmds_until_throw, strings_pref, J.isStr]
    | jarr xs => simp [push_cmds_until_throw, strings_pref, J.isStr]
    | jobj kvs => simp [push_cmds_until_throw, strings_pref, J.isStr]

/-- The spawn-branch union in closed form. -/
theorem process_spawn_result_eq (rj : J) (files cmds : List String) :
    process_spawn_result rj files cmds =
      (List.foldl dedup_push files
        (if rj.containsKey "files_modified" then
           strings_pref (J.elements (J.atKey rj "files_modified"))
         else []),
       cmds ++
        (if (!rj.containsKey "files_modified" ||
             (J.elements (J.atKey rj "files_modified")).all J.isStr) then
           (if rj.containsKey "commands_run" then
              strings_pref (J.elements (J.atKey rj "commands_run"))
            else [])
         else [])) := by
  unfold process_spawn_result
  by_cases hf : rj.containsKey "files_modified" = true
  · rw [if_pos hf] at *
    simp only [hf, if_true, push_files_until_throw_eq, Bool.not_true,
      Bool.false_or]
    by_cases hall : (J.elements (J.atKey rj "files_modified")).all J.isStr = true
    · simp only [hall, if_true]
      by_cases hc : rj.containsKey "commands_run" = true
      · simp [hc, push_cmds_until_throw_eq]
      · simp [Bool.of_not_eq_true hc]
    · simp [Bool.of_not_eq_true hall]
  · have hf' := Bool.of_not_eq_true hf
    simp only [hf', push_cmds_until_throw_eq, Bool.not_false, Bool.true_or,
      if_true, if_false, Bool.false_eq_true]
    by_cases hc : rj.containsKey "commands_run" = true <;> simp [hc]

end subagent

namespace subagent

/-- One tool call updates the accumulator by exactly its raw
contributions. -/
theorem handle_tool_call_eq (parse : String → Option J)
    (messages : List message) (tc : tool_call) (files cmds : List String) :
    handle_tool_call parse messages tc (files, cmds) =
      (List.foldl dedup_push files (raw_call_files parse messages tc),
       cmds ++ raw_call_cmds parse messages tc) := by
  unfold handle_tool_call raw_call_files raw_call_cmds
  cases hp : parse tc.arguments with
  | none => simp
  | some args =>
    simp only []
    by_cases hwe : tc.name = "write" ∨ tc.name = "edit"
    · rw [if_pos hwe, if_pos hwe, if_pos hwe]
      cases hv : args.valueStr? "file_path" "" with
      | none => simp
      | some path =>
        by_cases hpe : path ≠ ""
        · simp [hpe, dedup_push]
        · simp [hpe]
    · rw [if_neg hwe, if_neg hwe, if_neg hwe]
      by_cases hb : tc.name = "bash"
      · rw [if_pos hb, if_pos hb, if_pos hb]
        cases hv : args.valueStr? "command" "" with
        | none => simp
        | some cmd =>
          by_cases hce : cmd ≠ ""
          · simp [hce]
          · simp [hce]
      · rw [if_neg hb, if_neg hb, if_neg hb]
        by_cases hs : tc.name = "spawn_agent"
        · rw [if_pos hs, if_pos hs, if_pos hs]
          cases hfind : messages.find?
              (fun m => m.role == "tool" && m.tool_call_id == tc.id) with
          | none => simp [hfind]
          | some rmsg =>
            cases hc : parse rmsg.content with
            | none => simp [hfind, hc]
            | some rj =>
              simp only [hfind, hc, Option.bind_some, Option.some_bind]
              exact process_spawn_result_eq rj files cmds
        · rw [if_neg hs, if_neg hs, if_neg hs]
          simp

end subagent

namespace subagent

/-- A message's tool-call loop in closed form. -/
theorem fold_calls_eq (parse : String → Option J) (messages : List message)
    (tcs : List tool_call) (files cmds : List String) :
    tcs.foldl (fun acc tc => handle_tool_call parse messages tc acc)
        (files, cmds) =
      (List.foldl dedup_push files
        ((tcs.map (raw_call_files parse messages)).flatten),
       cmds ++ (tcs.map (raw_call_cmds parse messages)).flatten) := by
  induction tcs generalizing files cmds with
  | nil => simp
  | cons tc rest ih =>
    simp only [List.foldl_cons, handle_tool_call_eq, List.map_cons,
      List.flatten_cons]
    rw [ih]
    simp [List.foldl_append, List.append_assoc]

/-- The message loop in closed form, generalized over the accumulator
(`allmsgs` is the full transcript consulted by the `spawn_agent`
branch). -/
theorem fold_msgs_eq (parse : String → Option J) (allmsgs : List message)
    (msgs : List message) (files cmds : List String) :
    msgs.foldl (fun acc msg =>
        if msg.role = "assistant" then
          msg.tool_calls.foldl
            (fun acc tc => handle_tool_call parse allmsgs tc acc) acc
        else acc) (files, cmds) =
      (List.foldl dedup_push files (raw_files_from parse allmsgs msgs),
       cmds ++ raw_cmds_from parse allmsgs msgs) := by
  induction msgs generalizing files cmds with
  | nil => simp [raw_files_from, raw_cmds_from]
  | cons msg rest ih =>
    by_cases hr : msg.role = "assistant"
    · simp only [List.foldl_cons, if_pos hr, fold_calls_eq, raw_files_from,
        raw_cmds_from, List.map_cons, List.flatten_cons, if_pos hr]
      rw [ih]
      simp only [raw_files_from, raw_cmds_from]
      rw [List.foldl_append]
      simp [List.append_assoc]
    · simp only [List.foldl_cons, if_neg hr, raw_files_from, raw_cmds_from,
        List.map_cons, List.flatten_cons, if_neg hr]
      rw [ih]
      simp [raw_files_from, raw_cmds_from]

end subagent

namespace subagent

/-- Membership in the deduplicating fold. -/
theorem mem_foldl_dedup_push (l : List String) (files : List String)
    (x : String) :
    x ∈ List.foldl dedup_push files l ↔ x ∈ files ∨ x ∈ l := by
  induction l generalizing files with
  | nil => simp
  | cons a rest ih =>
    simp only [List.foldl_cons, ih, List.mem_cons]
    unfold dedup_push
    by_cases hc : files.contains a = true
    · rw [if_pos hc]
      have ha : a ∈ files := by simpa using hc
      constructor
      · rintro (h | h)
        · exact Or.inl h
        · exact Or.inr (Or.inr h)
      · rintro (h | h | h)
        · exact Or.inl h
        · exact Or.inl (h ▸ ha)
        · exact Or.inr h
    · rw [if_neg hc]
      simp only [List.mem_append, List.mem_singleton]
      tauto

/-- The deduplicating fold keeps the list duplicate-free. -/
theorem nodup_foldl_dedup_push (l : List String) (files : List String)
    (h : files.Nodup) : (List.foldl dedup_push files l).Nodup := by
  induction l generalizing files with
  | nil => exact h
  | cons a rest ih =>
    apply ih
    unfold dedup_push
    split_ifs with hc
    · exact h
    · have ha : a ∉ files := by simpa using hc
      exact List.Nodup.append h (List.nodup_singleton a)
        (fun x hx hy => ha (List.mem_singleton.mp hy ▸ hx))

/-- C6: `extract_modifications` collects exactly the `write`/`edit`
file paths (first-seen order, de-duplicated), the non-empty `bash`
commands (truncated to 200 characters with a trailing ellipsis when
longer, as written into `raw_call_cmds`), and the nested `spawn_agent`
result fields, unioned from each call's tool-result message. -/
theorem C6_extract_modifications (parse : String → Option J)
    (messages : List message) :
    extract_modifications parse messages =
      (dedup_first (raw_files_from parse messages messages),
       raw_cmds_from parse messages messages) ∧
    (∀ x, x ∈ (extract_modifications parse messages).1 ↔
       x ∈ raw_files_from parse messages messages) ∧
    (extract_modifications parse messages).1.Nodup := by
  have hmain : extract_modifications parse messages =
      (dedup_first (raw_files_from parse messages messages),
       raw_cmds_from parse messages messages) := by
    unfold extract_modifications
    rw [fold_msgs_eq]
    simp [dedup_first]
  refine ⟨hmain, fun x => ?_, ?_⟩
  · rw [hmain]
    simpa [dedup_first] using
      mem_foldl_dedup_push (raw_files_from parse messages messages) [] x
  · rw [hmain]
    exact nodup_foldl_dedup_push _ [] List.nodup_nil

end subagent

namespace workflow

/-- C4 (counterexample): approving a concrete session in
`AWAITING_APPROVAL` marks it APPROVED, but the plan file is written by a
single direct `ofstream` write — there is no temp-file write and no
rename, so the write is not atomic — and the generated markdown
contains no design-decisions section even though the session holds
answered questions. -/
theorem C4_counterexample :
    (approve_plan "/d" approval_session "## Phase 1\nstep" "t1" true).1.state =
      planning.planning_state.APPROVED ∧
    (approve_plan "/d" approval_session "## Phase 1\nstep" "t1" true).2 =
      [fs_event.write_file "/d/contexts/c1/plan.md"
        (planning.plan_formatter_generate
          { task_summary := "add a cache", created_at := "t0", version := 2,
            status := "approved", executive_summary := "",
            design_decisions := [], plan_body := "## Phase 1\nstep" })] ∧
    ((approve_plan "/d" approval_session "## Phase 1\nstep" "t1" true).2.all
      (fun e => match e with
        | .rename _ _ => false
        | .write_temp _ _ => false
        | _ => true)) = true ∧
    strFind "## Design Decisions".toList
      (planning.plan_formatter_generate
        { task_summary := "add a cache", created_at := "t0", version := 2,
          status := "approved", executive_summary := "",
          design_decisions := [], plan_body := "## Phase 1\nstep" }).toList =
      none ∧
    approval_session.answers ≠ J.jarr [] := by
  refine ⟨by decide, by decide, by decide, by decide, ?_⟩
  simp [approval_session]

/-- C4 (amended): approving a plan in `AWAITING_APPROVAL` marks the
session APPROVED and writes the final plan markdown — header plus
metadata plus plan body; the design-decisions section is omitted
because `plan_data.design_decisions` is never populated — to
`<ctx>/plan.md` by one direct, non-atomic file write (no temp file, no
rename). -/
theorem C4_approval (base : String) (sess : planning.planning_session)
    (plan_content now : String) (parent_exists : Bool)
    (h : sess.state = planning.planning_state.AWAITING_APPROVAL) :
    (approve_plan base sess plan_content now parent_exists).1.state =
      planning.planning_state.APPROVED ∧
    (approve_plan base sess plan_content now parent_exists).1.updated_at =
      now ∧
    (approve_plan base sess plan_content now parent_exists).1.plan_path =
      base ++ "/contexts/" ++ sess.context_id ++ "/plan.md" ∧
    (approve_plan base sess plan_content now parent_exists).2 =
      (if parent_exists then []
       else [fs_event.create_dirs
         (parent_path (base ++ "/contexts/" ++ sess.context_id ++ "/plan.md"))])
      ++ [fs_event.write_file
            (base ++ "/contexts/" ++ sess.context_id ++ "/plan.md")
            (planning.plan_formatter_generate
              { task_summary := sess.task, created_at := sess.created_at,
                version := sess.iteration + 1, status := "approved",
                executive_summary := "", design_decisions := [],
                plan_body := plan_content })] ∧
    (∀ e ∈ (approve_plan base sess plan_content now parent_exists).2,
      (∀ a b, e ≠ fs_event.rename a b) ∧ ∀ a b, e ≠ fs_event.write_temp a b) := by
  have hv : planning.validate_transition sess.state
      planning.planning_state.APPROVED = true := by rw [h]; rfl
  have happ : approve_plan base sess plan_content now parent_exists =
      ({ sess with
           state := planning.planning_state.APPROVED,
           updated_at := now,
           plan_path := base ++ "/contexts/" ++ sess.context_id ++ "/plan.md" },
       (if parent_exists then []
        else [fs_event.create_dirs
          (parent_path (base ++ "/contexts/" ++ sess.context_id ++ "/plan.md"))])
       ++ [fs_event.write_file
             (base ++ "/contexts/" ++ sess.context_id ++ "/plan.md")
             (planning.plan_formatter_generate
               { task_summary := sess.task, created_at := sess.created_at,
                 version := sess.iteration + 1, status := "approved",
                 executive_summary := "", design_decisions := [],
                 plan_body := plan_content })]) := by
    unfold approve_plan save_plan_file
    simp [planning.transition_to, hv]
  refine ⟨by rw [happ], by rw [happ], by rw [happ], by rw [happ], ?_⟩
  rw [happ]
  intro e he
  rcases List.mem_append.mp he with hmem | hmem
  · by_cases hp : parent_exists
    · simp [hp] at hmem
    · simp [hp] at hmem
      subst hmem
      exact ⟨fun a b => by simp, fun a b => by simp⟩
  · rw [List.mem_singleton] at hmem
    subst hmem
    exact ⟨fun a b => by simp, fun a b => by simp⟩

/-- Witness for `C4_approval`: the concrete `AWAITING_APPROVAL`
session. -/
theorem C4_approval_witness :
    (approve_plan "/d" approval_session "## Phase 1\nstep" "t1" true).1.state =
      planning.planning_state.APPROVED ∧
    (approve_plan "/d" approval_session "## Phase 1\nstep" "t1" true).1.plan_path =
      "/d" ++ "/contexts/" ++ approval_session.context_id ++ "/plan.md" :=
  ⟨(C4_approval "/d" approval_session "## Phase 1\nstep" "t1" true rfl).1,
   (C4_approval "/d" approval_session "## Phase 1\nstep" "t1" true rfl).2.2.1⟩

end workflow

namespace workflow

/-- `strFind` locates a pattern placed right after a stretch of
characters that cannot start it. -/
theorem strFind_append_first (p0 : Char) (pp l1 rest : List Char)
    (h1 : ∀ c ∈ l1, c ≠ p0)
    (hpre : (p0 :: pp).isPrefixOf rest = true) :
    strFind (p0 :: pp) (l1 ++ rest) = some l1.length := by
  induction l1 with
  | nil =>
    cases rest with
    | nil => simp [List.isPrefixOf] at hpre
    | cons r rs => simp [strFind, hpre]
  | cons c t ih =>
    have hc : c ≠ p0 := h1 c (List.mem_cons_self _ _)
    have hnp : (p0 :: pp).isPrefixOf (c :: (t ++ rest)) = false := by
      simp [List.isPrefixOf, Ne.symm hc]
    have ht := ih (fun d hd => h1 d (List.mem_cons_of_mem _ hd))
    simp only [List.cons_append, strFind, List.append_eq, hnp, Bool.false_eq_true,
      if_false, ht, Option.map_some', List.length_cons]

/-- The fenced-extraction of `extract_question_json_chars`, in closed
form: a lone lowercase fence whose body has no backticks and no
leading/trailing whitespace is extracted verbatim. -/
theorem fence_extract (P B T : List Char)
    (hP : ∀ c ∈ P, c ≠ '`') (hB : ∀ c ∈ B, c ≠ '`')
    (hBne : B ≠ [])
    (hBhead : ws_char (B.headD ' ') = false)
    (hBlast : ws_char (B.getLastD ' ') = false) :
    extract_question_json_chars
      (P ++ "```json\n".toList ++ B ++ "\n```".toList ++ T) = B := by
  have hsplit : P ++ "```json\n".toList ++ B ++ "\n```".toList ++ T =
      P ++ ("```json".toList ++ ('\n' :: (B ++ ('\n' :: ("```".toList ++ T))))) := by
    simp
  have hfind : strFind "```json".toList
      (P ++ "```json\n".toList ++ B ++ "\n```".toList ++ T) = some P.length := by
    rw [hsplit]
    exact strFind_append_first '`' "``json".toList P _ hP
      (List.isPrefixOf_iff_prefix.mpr (List.prefix_append _ _))
  have hdrop : (P ++ "```json\n".toList ++ B ++ "\n```".toList ++ T).drop
      (P.length + 7) = '\n' :: (B ++ ('\n' :: ("```".toList ++ T))) := by
    rw [hsplit, ← List.append_assoc P "```json".toList _]
    have : (P ++ "```json".toList).length = P.length + 7 := by
      rw [List.length_append]
      rfl
    rw [← this, List.drop_left]
  unfold extract_question_json_chars
  rw [hfind]
  simp only []
  rw [hdrop]
  have hdw : (('\n' :: (B ++ ('\n' :: ("```".toList ++ T)))).dropWhile ws_char) =
      B ++ ('\n' :: ("```".toList ++ T)) := by
    rw [List.dropWhile_cons_of_pos (by rfl)]
    cases B with
    | nil => exact absurd rfl hBne
    | cons b bs =>
      simp only [List.cons_append]
      rw [List.dropWhile_cons_of_neg]
      simp only [List.headD_cons] at hBhead
      simp [hBhead]
  rw [hdw]
  have hassoc : B ++ ('\n' :: ("```".toList ++ T)) =
      (B ++ ['\n']) ++ ("```".toList ++ T) := by simp
  have hfind3 : strFind "```".toList (B ++ ('\n' :: ("```".toList ++ T))) =
      some (B.length + 1) := by
    rw [hassoc]
    have := strFind_append_first '`' "``".toList (B ++ ['\n'])
      ("```".toList ++ T)
      (fun c hc => by
        rcases List.mem_append.mp hc with h | h
        · exact hB c h
        · rw [List.mem_singleton.mp h]; decide)
      (List.isPrefixOf_iff_prefix.mpr (List.prefix_append _ _))
    rwa [List.length_append, List.length_singleton] at this
  rw [hfind3]
  simp only []
  have htake : (B ++ ('\n' :: ("```".toList ++ T))).take (B.length + 1) =
      B ++ ['\n'] := by
    rw [hassoc]
    have : (B ++ ['\n']).length = B.length + 1 := by
      rw [List.length_append, List.length_singleton]
    rw [← this, List.take_left]
  rw [htake]
  have hrt : rtrim_ws (B ++ ['\n']) = B := by
    unfold rtrim_ws
    rw [List.reverse_append]
    simp only [List.reverse_singleton, List.singleton_append]
    rw [List.dropWhile_cons_of_pos (by rfl)]
    cases hrev : B.reverse with
    | nil =>
      exact absurd (by simpa using congrArg List.reverse hrev) hBne
    | cons r rs =>
      rw [List.dropWhile_cons_of_neg]
      · rw [← hrev, List.reverse_reverse]
      · have hlast : B.getLastD ' ' = r := by
          rw [List.getLastD_eq_getLast?, ← List.head?_reverse, hrev]
          rfl
        rw [hlast] at hBlast
        simp [hBlast]
  rw [hrt]
  simp [hBne]

end workflow

namespace workflow

/-- C5 counterexample: the fence search is not case-insensitive. A reply
whose fence is spelled ```` ```Json ```` and whose object opens with a
brace followed by a space defeats both extraction strategies, so the
well-formed questions inside are silently discarded (empty session),
although a case-insensitive search finds the fence and the content
parses to a one-question session. -/
theorem C5_counterexample :
    ci_fence_found cex_input = true ∧
    cex_parse cex_body = some cex_json ∧
    planning.parse_questions_from_json cex_json =
      some ⟨[⟨1, "T", ["a"], "", false, -1⟩], 0⟩ ∧
    extract_questions cex_parse cex_input = planning.qa_session.empty :=
  ⟨by decide, rfl, by decide, by decide⟩

end workflow

namespace planning

/-- Collecting the strings of an all-string option array returns the
underlying strings. -/
theorem collect_strings_map_jstr (l : List String) :
    collect_strings (l.map J.jstr) = l := by
  unfold collect_strings
  induction l with
  | nil => rfl
  | cons a t ih => simp only [List.map_cons, List.filterMap_cons, J.getString?, ih]

end planning

namespace workflow

/-- C5 (amended): question extraction finds the first fenced block only
for the exact spellings ```` ```json ```` and ```` ```JSON ```` (not
case-insensitively, see the counterexample); with no such fence it
recovers an object by the escape-aware balanced-brace scan from the
literal `\x7b"questions"`; parsing accepts `question` for `text` and
`answers` for `options`; and a malformed candidate yields the empty
session. -/
theorem C5_extraction
    (P B T S : List Char) (parse : String → Option J)
    (hP : ∀ c ∈ P, c ≠ '`') (hB : ∀ c ∈ B, c ≠ '`') (hBne : B ≠ [])
    (hBhead : ws_char (B.headD ' ') = false)
    (hBlast : ws_char (B.getLastD ' ') = false)
    (hS1 : strFind "```json".toList S = none)
    (hS2 : strFind "```JSON".toList S = none) :
    extract_question_json_chars
        (P ++ "```json\n".toList ++ B ++ "\n```".toList ++ T) = B ∧
    (∀ ds n, strFind "\x7b\"questions\"".toList S = some ds →
       brace_scan (S.drop ds) 0 false false 0 = some n →
       extract_question_json_chars S = (S.drop ds).take n) ∧
    (∀ (qid : Int) (t : String) (opts : List String),
       planning.parse_questions_from_json
         (J.jobj [("questions", J.jarr [J.jobj [("id", J.jnum qid),
           ("question", J.jstr t),
           ("answers", J.jarr (opts.map J.jstr))]])]) =
       planning.parse_questions_from_json
         (J.jobj [("questions", J.jarr [J.jobj [("id", J.jnum qid),
           ("text", J.jstr t),
           ("options", J.jarr (opts.map J.jstr))]])])) ∧
    (∀ s, parse (String.mk (extract_question_json_chars s.toList)) = none →
       extract_questions parse s = planning.qa_session.empty) := by
  refine ⟨fence_extract P B T hP hB hBne hBhead hBlast, ?_, ?_, ?_⟩
  · intro ds n hds hn
    simp only [extract_question_json_chars, hS1, hS2, hds, hn]
    simp
  · intro qid t opts
    simp [planning.parse_questions_from_json, planning.parse_q_loop,
      J.containsKey, J.lookupKV, J.atKey, J.valueInt?, J.isArr, J.elements,
      J.getString?, planning.collect_strings_map_jstr]
  · intro s hs
    simp only [extract_questions]
    cases hjs : extract_question_json_chars s.toList with
    | nil => simp
    | cons a l =>
      rw [hjs] at hs
      simp only [List.isEmpty_cons, Bool.false_eq_true, if_false, hs]

/-- The lowercase-fence branch of `C5_extraction` at a concrete reply. -/
theorem C5_extraction_witness :
    extract_question_json_chars
        ("pre\n".toList ++ "```json\n".toList ++ "\x7b\x7d".toList ++
          "\n```".toList ++ "ok".toList) = "\x7b\x7d".toList :=
  (C5_extraction "pre\n".toList "\x7b\x7d".toList "ok".toList
    "plain text".toList cex_parse
    (by decide) (by decide) (by decide) (by decide) (by decide)
    (by decide) (by decide)).1

end workflow
